import Mathlib

/-!
A verification development for `napalm_base/validate.py` (a Python 2 module).

The module implements a structural compliance checker: a recursive comparator
(`_find_differences`, `_handle_dict`, `_handle_unicode_int`, `_handle_list`),
a literal configuration-line check (`_find_config_differences`), two up-front
validators (`_check_getters`, `_check_config`) and an orchestrator (`validate`).

Modelling conventions, chosen to mirror Python 2 semantics:
- `Value` is the closed union of the Python values that flow through the
  comparator: unicode text (`vstr`), Python 2 byte strings (`vbytes`),
  integers, booleans, `None`, lists, dicts and tuples.  Dicts are modelled as
  association lists in insertion order with (in well-formed inputs) distinct
  keys; Python 2's hash-dependent dict/set iteration order is modelled as
  insertion order, which is sound for the properties proved here since none
  depends on report ordering beyond the expected mapping's own order.
- Python exceptions that can escape the comparator are modelled with
  `Except PyExc`: `KeyError` (subscript on a missing dict key),
  `AttributeError` (calling `iteritems`/`keys`/`get` on a non-dict),
  `TypeError` (hashing an unhashable value outside a `try`, or iterating a
  non-iterable), and `ValidationException` (raised explicitly by the module).
  The `try/except TypeError` in `_handle_dict` is modelled by testing
  hashability of the values on both sides, which is exactly the condition
  under which `set(...)/difference(...)` raises `TypeError` there.
- Python 2 `str(x)` is modelled by `pyStr`, `repr(x)` by `pyRepr` (container
  `str` delegates to element `repr`); `str` of an `int` is modelled by an
  explicit decimal-digit function `intStr`.  `x == y` is modelled by `pyEq`
  (`u'a' == b'a'`, `True == 1`, no `int`/text coercion).
- Python 2 `str.format` returns a unicode string when a top-level argument is
  unicode, a byte string otherwise; `isinstance(x, str)` is false for unicode
  strings.  Comparator messages therefore carry a flag (`RVal.s uni msg`)
  recording whether the message is unicode, which `validate` inspects.
- File loading (`_get_validation_file`) is I/O and is outside the comparator:
  `validate` is modelled as receiving the already-parsed validation source,
  per the specification's loader-collaborator contract.
-/

set_option maxHeartbeats 1000000
set_option maxRecDepth 2000

namespace NapalmValidate

/-- The Python values flowing through the comparator (see header notes). -/
inductive Value where
  | vstr (s : String)
  | vbytes (s : String)
  | vint (n : Int)
  | vbool (b : Bool)
  | vnone
  | vlist (l : List Value)
  | vdict (d : List (String × Value))
  | vtuple (l : List Value)

/-- Python exceptions that can escape the modelled code. -/
inductive PyExc where
  | keyError (k : String)
  | attributeError
  | typeError
  | validationException (msg : String)

/-- The result values the module stores in its error structures: Python 2
strings (`uni` = true for unicode, false for byte strings), raw values
(the config branch stores the missing lines themselves), lists and dicts. -/
inductive RVal where
  | s (uni : Bool) (x : String)
  | v (x : Value)
  | l (xs : List RVal)
  | d (m : List (String × RVal))

/-- Python dict lookup `d.get(k)` would give: `some` of the first value
stored under `k` (Python dicts have unique keys). -/
def pyFind (d : List (String × Value)) (k : String) : Option Value :=
  match d with
  | [] => none
  | (k2, v) :: rest => if k2 == k then some v else pyFind rest k

/-- Python `d.get(k)`: the value under `k`, or `None` when absent. -/
def pyGet (d : List (String × Value)) (k : String) : Value :=
  match pyFind d k with
  | some v => v
  | none => .vnone

/-- Python `d[k]`: the value under `k`, or a `KeyError`. -/
def pyIndex (d : List (String × Value)) (k : String) : Except PyExc Value :=
  match pyFind d k with
  | some v => .ok v
  | none => .error (.keyError k)

/-- Little-endian decimal digits of a natural number (empty for 0). -/
def natDigits (n : Nat) : List Nat :=
  if h : n = 0 then []
  else n % 10 :: natDigits (n / 10)
termination_by n
decreasing_by
  exact Nat.div_lt_self (Nat.pos_of_ne_zero h) (by omega)

/-- The decimal digit characters. -/
def digitChar (d : Nat) : Char :=
  if d = 0 then '0' else if d = 1 then '1' else if d = 2 then '2'
  else if d = 3 then '3' else if d = 4 then '4' else if d = 5 then '5'
  else if d = 6 then '6' else if d = 7 then '7' else if d = 8 then '8'
  else '9'

/-- Python `str` of a natural number: standard decimal notation. -/
def natStr (n : Nat) : String :=
  if n = 0 then "0" else String.mk ((natDigits n).reverse.map digitChar)

/-- Python `str` of an `int`: decimal notation, `-` sign for negatives. -/
def intStr (n : Int) : String :=
  if n < 0 then "-" ++ natStr n.natAbs else natStr n.natAbs

mutual

/-- Python 2 `repr(x)` (element order of dict output modelled as insertion
order; quote escaping inside strings is not modelled). -/
def pyRepr : Value → String
  | .vstr s => "u'" ++ s ++ "'"
  | .vbytes s => "'" ++ s ++ "'"
  | .vint n => intStr n
  | .vbool b => if b then "True" else "False"
  | .vnone => "None"
  | .vlist l => "[" ++ pyReprList l ++ "]"
  | .vtuple [x] => "(" ++ pyRepr x ++ ",)"
  | .vtuple l => "(" ++ pyReprList l ++ ")"
  | .vdict d => "\x7b" ++ pyReprEntries d ++ "\x7d"
termination_by v => sizeOf v

/-- Comma-separated `repr`s, as inside a Python list/tuple display. -/
def pyReprList : List Value → String
  | [] => ""
  | [x] => pyRepr x
  | x :: y :: rest => pyRepr x ++ ", " ++ pyReprList (y :: rest)
termination_by l => sizeOf l

/-- Comma-separated `'key': repr(value)` entries of a dict display
(keys from the YAML loader are Python 2 byte strings). -/
def pyReprEntries : List (String × Value) → String
  | [] => ""
  | [(k, v)] => "'" ++ k ++ "': " ++ pyRepr v
  | (k, v) :: p :: rest => "'" ++ k ++ "': " ++ pyRepr v ++ ", " ++ pyReprEntries (p :: rest)
termination_by d => sizeOf d

end

/-- Python 2 `str(x)`: the text itself for strings, `repr` otherwise. -/
def pyStr : Value → String
  | .vstr s => s
  | .vbytes s => s
  | v => pyRepr v

mutual

/-- Python 2 `x == y` for the modelled values: unicode and byte strings
compare by content, `bool` compares with `int` (`True == 1`), lists/tuples
elementwise, dicts by equal size and pointwise-equal values; all other
cross-kind comparisons are unequal (in particular `42 != u'42'`). -/
def pyEq : Value → Value → Bool
  | .vstr a, .vstr b => a == b
  | .vstr a, .vbytes b => a == b
  | .vbytes a, .vstr b => a == b
  | .vbytes a, .vbytes b => a == b
  | .vint a, .vint b => a == b
  | .vint a, .vbool b => a == (if b then 1 else 0)
  | .vbool a, .vint b => (if a then 1 else 0 : Int) == b
  | .vbool a, .vbool b => a == b
  | .vnone, .vnone => true
  | .vlist a, .vlist b => pyEqList a b
  | .vtuple a, .vtuple b => pyEqList a b
  | .vdict a, .vdict b => a.length == b.length && pyEqEntries a b
  | _, _ => false
termination_by a b => sizeOf a + sizeOf b

/-- Elementwise Python equality of two sequences of equal length. -/
def pyEqList : List Value → List Value → Bool
  | [], [] => true
  | x :: xs, y :: ys => pyEq x y && pyEqList xs ys
  | _, _ => false
termination_by a b => sizeOf a + sizeOf b

/-- `all (k, v) of the first dict: k in second and second[k] == v`. -/
def pyEqEntries : List (String × Value) → List (String × Value) → Bool
  | [], _ => true
  | (k, v) :: rest, b => pyLookupEq k v b && pyEqEntries rest b
termination_by a b => sizeOf a + sizeOf b

/-- `k in b and b[k] == v` (first entry under `k` wins, as in a dict). -/
def pyLookupEq (k : String) (v : Value) : List (String × Value) → Bool
  | [] => false
  | (k2, w) :: rest => if k == k2 then pyEq v w else pyLookupEq k v rest
termination_by b => sizeOf v + sizeOf b

end

mutual

/-- Whether a Python value is hashable: containers (`list`, `dict`) are not,
tuples are hashable when all their elements are. -/
def hashableV : Value → Bool
  | .vlist _ => false
  | .vdict _ => false
  | .vtuple l => hashableList l
  | _ => true

/-- All elements hashable. -/
def hashableList : List Value → Bool
  | [] => true
  | x :: xs => hashableV x && hashableList xs

end

/-- All values of an association list are hashable: the exact condition under
which `set(d.iteritems()).difference(d2.iteritems())` does not raise
`TypeError`. -/
def hashableEntries (d : List (String × Value)) : Bool :=
  d.all (fun p => hashableV p.2)

/-- Python `for x in v`: lists and tuples yield elements, dicts yield their
keys (byte strings), strings yield their one-character substrings; iterating
an `int`, `bool` or `None` raises `TypeError`. -/
def pyIter : Value → Except PyExc (List Value)
  | .vlist l => .ok l
  | .vtuple l => .ok l
  | .vdict d => .ok (d.map (fun p => Value.vbytes p.1))
  | .vstr s => .ok (s.data.map (fun c => Value.vstr (String.mk [c])))
  | .vbytes s => .ok (s.data.map (fun c => Value.vbytes (String.mk [c])))
  | _ => .error .typeError

/-- Python truthiness of a value. -/
def pyTruthy : Value → Bool
  | .vstr s => !(s == "")
  | .vbytes s => !(s == "")
  | .vint n => !(n == 0)
  | .vbool b => b
  | .vnone => false
  | .vlist l => !l.isEmpty
  | .vdict d => !d.isEmpty
  | .vtuple l => !l.isEmpty

/-- Python truthiness of a stored result (`''`, `[]` and an empty dict are
falsy). -/
def rTruthy : RVal → Bool
  | .s _ x => !(x == "")
  | .v x => pyTruthy x
  | .l xs => !xs.isEmpty
  | .d m => !m.isEmpty

/-- Whether a value is a Python 2 unicode string: the only argument kind that
promotes a byte-string `format` template to a unicode result. -/
def isUni : Value → Bool
  | .vstr _ => true
  | _ => false

/-- `Prod.Lex` helper: a triple decreases when its first component does not
grow and its second strictly drops. -/
theorem lex3_le_lt {a b x y c d : Nat} (hab : a ≤ b) (hxy : x < y) :
    Prod.Lex (· < ·) (Prod.Lex (· < ·) (· < ·)) (a, x, c) (b, y, d) := by
  rcases Nat.lt_or_ge a b with h | h
  · exact Prod.Lex.left _ _ h
  · have heq : a = b := Nat.le_antisymm hab h
    subst heq
    exact Prod.Lex.right _ (Prod.Lex.left _ _ hxy)

/-- `Prod.Lex` helper: a triple decreases in its third component. -/
theorem lex3_third {a x c d : Nat} (h : c < d) :
    Prod.Lex (· < ·) (Prod.Lex (· < ·) (· < ·)) (a, x, c) (a, x, d) :=
  Prod.Lex.right _ (Prod.Lex.right _ h)

/-- A value found in an association list is structurally smaller than it. -/
theorem pyFind_sizeOf_lt {d : List (String × Value)} {k : String} {v : Value}
    (h : pyFind d k = some v) : sizeOf v < sizeOf d := by
  induction d with
  | nil => simp [pyFind] at h
  | cons p rest ih =>
    obtain ⟨k2, w⟩ := p
    rw [pyFind] at h
    split at h
    · cases h
      simp
      omega
    · have := ih h
      simp
      omega

/-- `d.get(k)` is never structurally bigger than `d` itself. -/
theorem pyGet_sizeOf_le (d : List (String × Value)) (k : String) :
    sizeOf (pyGet d k) ≤ sizeOf d := by
  rw [pyGet]
  cases h : pyFind d k with
  | some v => exact Nat.le_of_lt (pyFind_sizeOf_lt h)
  | none =>
    cases d with
    | nil => simp
    | cons p rest => simp; omega

/-- `_handle_unicode_int` from the source: scalars compare by their `str`
forms; a difference yields the two-sided message, agreement yields `''`. -/
def _handle_unicode_int (actual expected : Value) : String :=
  if !(pyStr actual == pyStr expected) then
    "Expected '" ++ pyStr expected ++ "', found '" ++ pyStr actual ++ "' instead"
  else ""

/-- The stored result of a scalar comparison: the `_handle_unicode_int`
string, tagged unicode exactly when `format` received a unicode argument. -/
def scalarRes (actual expected : Value) : RVal :=
  .s ((!(pyStr actual == pyStr expected)) && (isUni actual || isUni expected))
    (_handle_unicode_int actual expected)

/-- Membership of an item pair in a dict's item set:
`(k, v) in d.iteritems()` (key equality plus Python value equality). -/
def pairMem (p : String × Value) (d : List (String × Value)) : Bool :=
  d.any (fun q => q.1 == p.1 && pyEq p.2 q.2)

/-- The reporting loop of `_handle_dict`'s set-difference branch: one message
per `delta` pair, each reading the actual value with `actual_values[key]`
(hence `KeyError` when the key is absent from the actual mapping). -/
def fastLoop (ad : List (String × Value)) : List (String × Value) → Except PyExc (List RVal)
  | [] => .ok []
  | (k, v) :: rest =>
      match pyIndex ad k with
      | .error e => .error e
      | .ok av =>
          match fastLoop ad rest with
          | .error e => .error e
          | .ok msgs =>
              .ok (RVal.s (isUni v || isUni av)
                ("Expected '" ++ k ++ ": " ++ pyStr v ++ "', found '" ++ k ++ ": "
                  ++ pyStr av ++ "' instead") :: msgs)

/-- The set-difference branch of `_handle_dict`: `delta` is the set of
expected item pairs absent from the actual item set, reported by `fastLoop`
as a list of messages. -/
def fastPath (ad ed : List (String × Value)) : Except PyExc RVal :=
  (fastLoop ad (ed.filter (fun p => !pairMem p ad))).map RVal.l

/-- The inner loop of `_handle_list` for a dict-valued expected element:
scan every actual element (no early exit in the source), marking `found`
when some actual dict contains every expected item pair.  Hashing the
expected pairs raises `TypeError` outside any `try`; a non-dict actual
element raises `AttributeError` (`act_values.iteritems()`). -/
def dictElemLoop (d : List (String × Value)) : List Value → Bool → Except PyExc Bool
  | [], found => .ok found
  | av :: rest, found =>
      if !hashableEntries d then .error .typeError
      else
        match av with
        | .vdict avd =>
            if !hashableEntries avd then .error .typeError
            else dictElemLoop d rest (found || (d.filter (fun p => !pairMem p avd)).isEmpty)
        | _ => .error .attributeError

/-- The main loop of `_handle_list`.  `uni`/`msg` model the source's
`not_matched_string`, which is initialised once outside the loop and never
reset: after any mismatch, every later element (matched or not) appends the
current message again. -/
def listLoop (avs : List Value) : List Value → Bool → String → List RVal → Except PyExc (List RVal)
  | [], _, _, acc => .ok acc
  | value :: rest, uni, msg, acc =>
      match value with
      | .vdict d =>
          match dictElemLoop d avs false with
          | .error e => .error e
          | .ok found =>
              let uni2 := if found then uni else false
              let msg2 := if found then msg else "Expected but not found: " ++ pyStr value
              listLoop avs rest uni2 msg2
                (if !(msg2 == "") then acc ++ [RVal.s uni2 msg2] else acc)
      | _ =>
          let found := avs.any (fun av => pyEq value av)
          let uni2 := if found then uni else isUni value
          let msg2 := if found then msg else "Expected but not found: " ++ pyStr value
          listLoop avs rest uni2 msg2
            (if !(msg2 == "") then acc ++ [RVal.s uni2 msg2] else acc)

/-- `_handle_list` from the source: iterate the expected elements (whatever
Python iteration yields for the expected value), a dict element looking for a
pair-subset match among the actual elements, any other element looking for a
Python-equal member of the actual list. -/
def _handle_list (avs : List Value) (expected : Value) : Except PyExc RVal :=
  match pyIter expected with
  | .error e => .error e
  | .ok items => (listLoop avs items false "" []).map RVal.l

mutual

/-- `_find_differences` from the source: dispatch on the *actual* value's
runtime kind.  `None` reports the missing-key message; dicts, text/int
scalars and lists look up `expected_values[key]` and delegate; any other
kind (byte strings, tuples, ...) falls through every `isinstance` test and
yields the initial `''`. -/
def _find_differences (key : String) (actual : Value) (evs : List (String × Value)) :
    Except PyExc RVal :=
  match actual with
  | .vnone => .ok (.s false "Expected key but not found.")
  | .vdict ad =>
      match pyIndex evs key with
      | .error e => .error e
      | .ok ev => _handle_dict ad ev
  | .vstr s =>
      match pyIndex evs key with
      | .error e => .error e
      | .ok ev => .ok (scalarRes (.vstr s) ev)
  | .vint n =>
      match pyIndex evs key with
      | .error e => .error e
      | .ok ev => .ok (scalarRes (.vint n) ev)
  | .vbool b =>
      match pyIndex evs key with
      | .error e => .error e
      | .ok ev => .ok (scalarRes (.vbool b) ev)
  | .vlist al =>
      match pyIndex evs key with
      | .error e => .error e
      | .ok ev => _handle_list al ev
  | .vbytes _ => .ok (.s false "")
  | .vtuple _ => .ok (.s false "")
termination_by (sizeOf actual, 0, 0)
decreasing_by
  apply Prod.Lex.left
  simp

/-- `_handle_dict` from the source: `iteritems` on a non-dict expected value
raises `AttributeError`; if every value on both sides is hashable the
`try` body succeeds and the set-difference branch runs, otherwise the
`except TypeError` branch compares the expected keys one by one. -/
def _handle_dict (ad : List (String × Value)) (expected : Value) : Except PyExc RVal :=
  match expected with
  | .vdict ed =>
      if hashableEntries ed && hashableEntries ad then fastPath ad ed
      else (slowLoop ad ed ed).map RVal.d
  | _ => .error .attributeError
termination_by (sizeOf ad, 2, 0)
decreasing_by
  apply Prod.Lex.right
  apply Prod.Lex.left
  omega

/-- The `except TypeError` branch of `_handle_dict`: for every expected key,
compare `actual_values.get(key)` recursively, storing truthy results. -/
def slowLoop (ad ed : List (String × Value)) :
    List (String × Value) → Except PyExc (List (String × RVal))
  | [] => .ok []
  | (k, _) :: rest =>
      match _find_differences k (pyGet ad k) ed with
      | .error e => .error e
      | .ok r =>
          match slowLoop ad ed rest with
          | .error e => .error e
          | .ok entries => .ok (if rTruthy r then (k, r) :: entries else entries)
termination_by rem => (sizeOf ad, 1, sizeOf rem)
decreasing_by
  · exact lex3_le_lt (pyGet_sizeOf_le _ _) (by omega)
  · exact lex3_third (by simp only [List.cons.sizeOf_spec, Prod.mk.sizeOf_spec]; omega)

end

/-- The general per-key recursive rule of mapping comparison: the
`except TypeError` branch of `_handle_dict`, run over all expected keys. -/
def slowPath (ad ed : List (String × Value)) : Except PyExc RVal :=
  (slowLoop ad ed ed).map RVal.d

/-- `_find_config_differences` from the source: the expected lines that are
not members of the actual line list, in order. -/
def _find_config_differences (actual_config : List String) (expected_config : Value) :
    Except PyExc (List Value) :=
  match pyIter expected_config with
  | .error e => .error e
  | .ok lines => .ok (lines.filter (fun line => !actual_config.any (fun a => pyEq line (.vstr a))))

/-- Python `s.startswith(pre)`: character-prefix test. -/
def pyStartsWith (s pre : String) : Bool :=
  pre.data.isPrefixOf s.data

/-- `_check_getters` from the source: the first requested name that does not
both start with `get_` and exist on the driver class raises
`ValidationException` naming it. -/
def _check_getters (methods : List String) (getters : List String) :
    Except PyExc (List String) :=
  match getters.find? (fun g => !(pyStartsWith g "get_" && methods.contains g)) with
  | some g => .error (.validationException (g ++ " method not found."))
  | none => .ok getters

/-- `_check_config` from the source. -/
def _check_config (config : String) : Except PyExc Unit :=
  if config == "running" || config == "candidate" then .ok ()
  else .error (.validationException
    (config ++ " config not supported. Only running or candidate are allowed"))

/-- The driver instance (`cls`), as the orchestrator consumes it:
`methods` models `dir(cls)`, `runGetter g` models `getattr(cls, g)()`.
`getConfig c` is modelled from the spec: `cls.get_config(retrieve=c)[c]`
lives outside this module, and the specification's collaborator contract has
it return the configuration region as a sequence of line scalars. -/
structure Driver where
  methods : List String
  runGetter : String → Value
  getConfig : String → List String

/-- The outcome of `validate`: the literal `True`, or the error mapping. -/
inductive VOut where
  | success
  | failure (errors : List (String × RVal))

/-- Python truthiness of the `getters` argument (`None` and `[]` are falsy). -/
def optListTruthy : Option (List String) → Bool
  | none => false
  | some l => !l.isEmpty

/-- Python truthiness of the `config` argument (`None` and `''` are falsy). -/
def optStrTruthy : Option String → Bool
  | none => false
  | some c => !(c == "")

/-- How the orchestrator folds one truthy comparison result into
`not_matched`: dicts and byte strings are appended whole
(`isinstance(x, dict) or isinstance(x, str)`); everything else is
extended, so a unicode message is splatted into its one-character
substrings and a list result contributes its elements. -/
def resultItems : RVal → List RVal
  | .d m => [.d m]
  | .s false x => [.s false x]
  | .s true m => m.data.map (fun c => RVal.s true (String.mk [c]))
  | .l xs => xs
  | .v x => [.v x]

/-- The per-key loop of `validate`'s getter branch: for every expected key,
read `actual_results.get(key)` (`AttributeError` when the actual result is
not a dict), compare, and store non-empty `not_matched` lists. -/
def keyLoop (actual : Value) (ed : List (String × Value)) :
    List (String × Value) → Except PyExc (List (String × RVal))
  | [] => .ok []
  | (key, _) :: rest =>
      match actual with
      | .vdict ad =>
          match _find_differences key (pyGet ad key) ed with
          | .error e => .error e
          | .ok r =>
              match keyLoop actual ed rest with
              | .error e => .error e
              | .ok entries =>
                  let nm := if rTruthy r then resultItems r else []
                  .ok (if !nm.isEmpty then (key, RVal.l nm) :: entries else entries)
      | _ => .error .attributeError

/-- The per-getter loop of `validate`: look the getter up in the validation
source (`KeyError` becomes a `ValidationException`), invoke it, wrap a bare
list result (and its expected counterpart) under the synthetic key
`not_matched`, iterate the expected keys (`.keys()` raises `AttributeError`
on a non-dict), and store non-empty per-getter results. -/
def getterLoop (cls : Driver) (source : List (String × Value)) :
    List String → Except PyExc (List (String × RVal))
  | [] => .ok []
  | g :: rest =>
      match pyFind source g with
      | none => .error (.validationException
          (g ++ " key not found in validation file. Check your syntax."))
      | some expected0 =>
          let actual0 := cls.runGetter g
          let actual1 := match actual0 with
            | .vlist al => Value.vdict [("not_matched", .vlist al)]
            | a => a
          let expected1 := match actual0 with
            | .vlist _ => Value.vdict [("not_matched", expected0)]
            | _ => expected0
          match expected1 with
          | .vdict ed =>
              match keyLoop actual1 ed ed with
              | .error e => .error e
              | .ok entries =>
                  match getterLoop cls source rest with
                  | .error e => .error e
                  | .ok errs =>
                      .ok (if !entries.isEmpty then (g, RVal.d entries) :: errs else errs)
          | _ => .error .attributeError

/-- The configuration branch of `validate`: look the region up in the
validation source, fetch the actual configuration lines, and report the
missing lines under the fixed label. -/
def configErrors (cls : Driver) (source : List (String × Value)) (c : String) :
    Except PyExc (List (String × RVal)) :=
  match pyFind source c with
  | none => .error (.validationException
      (c ++ " key not found in validation file. Check your syntax."))
  | some expectedCfg =>
      match _find_config_differences (cls.getConfig c) expectedCfg with
      | .error e => .error e
      | .ok missing =>
          .ok (if !missing.isEmpty then
            [("Expected but not found in " ++ c ++ " config", RVal.l (missing.map RVal.v))]
          else [])

/-- The error mapping accumulated by `validate`: the up-front checks run
first (`_check_getters`, then `_check_config`), then the getter branch, or
else the configuration branch. -/
def validateErrors (cls : Driver) (getters : Option (List String)) (config : Option String)
    (source : List (String × Value)) : Except PyExc (List (String × RVal)) :=
  match (if optListTruthy getters then _check_getters cls.methods (getters.getD []) else .ok []) with
  | .error e => .error e
  | .ok _ =>
      match (if optStrTruthy config then _check_config (config.getD "") else .ok ()) with
      | .error e => .error e
      | .ok _ =>
          if optListTruthy getters then getterLoop cls source (getters.getD [])
          else if optStrTruthy config then configErrors cls source (config.getD "")
          else .ok []

/-- `validate` from the source (receiving the already-parsed validation
source, see header notes): the literal `True` when no errors were collected,
the error mapping otherwise. -/
def validate (cls : Driver) (getters : Option (List String)) (config : Option String)
    (source : List (String × Value)) : Except PyExc VOut :=
  match validateErrors cls getters config source with
  | .error e => .error e
  | .ok errs => .ok (if errs.isEmpty then .success else .failure errs)

/-- Appending on the right preserves a non-empty character list. -/
theorem data_ne_nil_append {x : String} (y : String) (h : x.data ≠ []) :
    (x ++ y).data ≠ [] := by
  rw [String.data_append]
  exact fun hc => h (List.append_eq_nil.mp hc).1

/-- A string with a non-empty character list is not the empty string. -/
theorem ne_empty_of_data {x : String} (h : x.data ≠ []) : x ≠ "" := by
  intro hc
  rw [hc] at h
  exact h rfl

/-- Scalars whose runtime kind the `_find_differences` dispatcher recognises
and routes to the scalar comparison (`unicode`, `int` and `bool`, the latter
being an `int` subclass in Python). -/
def isDispatchedScalar : Value → Bool
  | .vstr _ => true
  | .vint _ => true
  | .vbool _ => true
  | _ => false

/-- Values whose kind the dispatcher cannot determine: none of the
`isinstance` tests (`None`, `dict`, `unicode`, `int`, `list`) matches.
In the modelled universe these are Python 2 byte strings and tuples. -/
def undispatched : Value → Bool
  | .vbytes _ => true
  | .vtuple _ => true
  | _ => false

/-- C1: in the nested mapping comparison, a key present in the expected
mapping but absent from the actual mapping is *not* reported with
`Expected key but not found.` when every value at that level is hashable:
the set-difference branch runs, `delta` contains the missing pair, and
`actual_values[delta_key]` raises an uncaught `KeyError` that aborts the
whole run.  The general per-key branch (`slowPath`) of the same comparison
produces exactly the report the claim describes, so the fast path is the
slip. -/
theorem c1_missing_key_fast_branch_raises :
    _handle_dict [("x", .vint 1)] (.vdict [("x", .vint 1), ("y", .vint 2)]) =
      .error (.keyError "y") ∧
    slowPath [("x", .vint 1)] [("x", .vint 1), ("y", .vint 2)] =
      .ok (.d [("y", .s false "Expected key but not found.")]) := by
  constructor
  · simp [_handle_dict.eq_def, fastPath, fastLoop, pairMem, pyEq.eq_def, pyIndex, pyFind,
      hashableEntries, hashableV.eq_def, Except.map]
  · simp [slowPath, slowLoop.eq_def, _find_differences.eq_def, pyGet, pyFind, rTruthy,
      scalarRes, _handle_unicode_int, pyStr.eq_def, pyRepr.eq_def, intStr, natStr,
      natDigits, digitChar, pyIndex, Except.map]

/-- C2: sequence comparison does not emit a message exactly for the
unmatched expected elements.  The source never resets `not_matched_string`
inside the loop, so after the unmatched `1`, the *matched* element `2`
appends the stale `Expected but not found: 1` a second time.  Moreover the
membership test is Python equality, not the normalized-string scalar rule:
the expected scalar `42` finds no match in actual `[u'42']` and is
reported even though the normalized string forms agree. -/
theorem c2_stale_message_and_python_equality :
    _handle_list [.vint 2] (.vlist [.vint 1, .vint 2]) =
      .ok (.l [.s false "Expected but not found: 1",
               .s false "Expected but not found: 1"]) ∧
    _handle_list [.vstr "42"] (.vlist [.vint 42]) =
      .ok (.l [.s false "Expected but not found: 42"]) ∧
    pyStr (.vint 42) = pyStr (.vstr "42") := by
  refine ⟨?_, ?_, ?_⟩
  · simp [_handle_list, pyIter, listLoop.eq_def, pyEq.eq_def, pyStr.eq_def, pyRepr.eq_def,
      intStr, natStr, natDigits, digitChar, isUni, Except.map]
  · simp [_handle_list, pyIter, listLoop.eq_def, pyEq.eq_def, pyStr.eq_def, pyRepr.eq_def,
      intStr, natStr, natDigits, digitChar, isUni, Except.map]
  · simp [pyStr.eq_def, pyRepr.eq_def, intStr, natStr, natDigits, digitChar]

/-- C3: for an actual scalar of a dispatched kind and the expected value
found under the key, the comparator returns exactly the scalar-rule result:
it is non-truthy (no mismatch) precisely when the normalized string forms
(`str(...)`) agree, and on disagreement the message is exactly
`Expected '<expected>', found '<actual>' instead`.  (A `None` actual is
governed by the separate missing-value rule, and so is out of scope of the
scalar-vs-scalar rule.) -/
theorem c3_scalar_rule (k : String) (evs : List (String × Value)) (a e : Value)
    (ha : isDispatchedScalar a = true) (he : pyFind evs k = some e) :
    _find_differences k a evs = .ok (scalarRes a e) ∧
    (rTruthy (scalarRes a e) = false ↔ pyStr a = pyStr e) ∧
    (pyStr a ≠ pyStr e →
      _handle_unicode_int a e =
        "Expected '" ++ pyStr e ++ "', found '" ++ pyStr a ++ "' instead") := by
  have hmsg : pyStr a ≠ pyStr e →
      _handle_unicode_int a e =
        "Expected '" ++ pyStr e ++ "', found '" ++ pyStr a ++ "' instead" := by
    intro hne
    rw [_handle_unicode_int]
    simp [hne]
  refine ⟨?_, ?_, hmsg⟩
  · cases a <;> simp_all [isDispatchedScalar, _find_differences.eq_def, pyIndex, he]
  · constructor
    · intro h
      by_contra hne
      simp only [scalarRes, rTruthy, hmsg hne] at h
      simp only [Bool.not_eq_false'] at h
      have h2 := beq_iff_eq.mp h
      have hne2 : ("Expected '" ++ pyStr e ++ "', found '" ++ pyStr a ++ "' instead") ≠ "" :=
        ne_empty_of_data (data_ne_nil_append _ (data_ne_nil_append _ (data_ne_nil_append _
          (data_ne_nil_append _ (by decide)))))
      exact hne2 h2
    · intro h
      simp [rTruthy, scalarRes, _handle_unicode_int, h]

/-- C3 witness: `42` against `u'42'` yields no mismatch (normalized string
coercion), and `42` against `u'43'` yields exactly the two-sided message. -/
theorem c3_scalar_rule_witness :
    _find_differences "x" (.vint 42) [("x", .vstr "42")] =
      .ok (scalarRes (.vint 42) (.vstr "42")) ∧
    rTruthy (scalarRes (.vint 42) (.vstr "42")) = false ∧
    _handle_unicode_int (.vint 42) (.vstr "43") = "Expected '43', found '42' instead" := by
  have h1 := c3_scalar_rule "x" [("x", .vstr "42")] (.vint 42) (.vstr "42")
    (by rfl) (by simp [pyFind])
  have h2 := c3_scalar_rule "x" [("x", .vstr "43")] (.vint 42) (.vstr "43")
    (by rfl) (by simp [pyFind])
  refine ⟨h1.1, h1.2.1.mpr ?_, ?_⟩
  · simp [pyStr.eq_def, pyRepr.eq_def, intStr, natStr, natDigits, digitChar]
  · have h3 := h2.2.2 (by simp [pyStr.eq_def, pyRepr.eq_def, intStr, natStr, natDigits, digitChar])
    rw [h3]
    simp [pyStr.eq_def, pyRepr.eq_def, intStr, natStr, natDigits, digitChar]

/-- C9 counterexample: a tuple actual value (its kind matches none of the
dispatcher's `isinstance` tests) against an expected `int` it plainly does
not match yields a normal, *empty* comparison result: no configuration
error, no exception, no compliance mismatch. -/
theorem c9_undetermined_kind_counterexample :
    _find_differences "peers" (.vtuple [.vint 1]) [("peers", .vint 5)] = .ok (.s false "") ∧
    rTruthy (.s false "") = false := by
  constructor
  · simp [_find_differences.eq_def]
  · rfl

/-- C9 amended: when the actual value's kind cannot be determined (it fails
every `isinstance` test of the dispatcher: byte strings and tuples in the
modelled universe), the comparator silently returns the initial empty
string, reporting neither a configuration error nor a mismatch. -/
theorem c9_undetermined_kind_silently_passes (k : String) (v : Value)
    (evs : List (String × Value)) (h : undispatched v = true) :
    _find_differences k v evs = .ok (.s false "") := by
  cases v <;> simp_all [undispatched, _find_differences.eq_def]

/-- C9 witness: the amended behaviour at a concrete byte-string actual. -/
theorem c9_undetermined_kind_witness :
    _find_differences "os" (.vbytes "eos") [("os", .vstr "ios")] = .ok (.s false "") :=
  c9_undetermined_kind_silently_passes "os" (.vbytes "eos") [("os", .vstr "ios")] (by rfl)

/-- C7: when some requested check name fails the accessor test (it does not
start with `get_` or is not present on the subject), `validate` raises the
`ValidationException` naming the first such method — before the validation
source, the getter results or the configuration are consulted, as the
statement's universal quantification over `rg`, `gc`, `config` and `source`
records. -/
theorem c7_unknown_getter_raises (methods : List String) (rg : String → Value)
    (gc : String → List String) (gl : List String) (config : Option String)
    (source : List (String × Value)) (g : String)
    (h : gl.find? (fun x => !(pyStartsWith x "get_" && methods.contains x)) = some g) :
    validate ⟨methods, rg, gc⟩ (some gl) config source =
      .error (.validationException (g ++ " method not found.")) := by
  have hne : gl ≠ [] := by
    intro hc
    subst hc
    simp [List.find?] at h
  rw [validate, validateErrors]
  have htr : optListTruthy (some gl) = true := by
    simp [optListTruthy, hne]
  rw [htr]
  simp only [if_true, Option.getD, _check_getters, h]

/-- C7 witness: a name without the accessor prefix on a subject exposing
only `get_facts`. -/
theorem c7_unknown_getter_witness :
    validate ⟨["get_facts"], fun _ => .vnone, fun _ => []⟩ (some ["facts"]) none [] =
      .error (.validationException "facts method not found.") :=
  c7_unknown_getter_raises ["get_facts"] (fun _ => .vnone) (fun _ => []) ["facts"] none [] "facts"
    (by simp [List.find?, pyStartsWith, List.isPrefixOf])

/-- C10: with a truthy getter list and a config region, the region is still
validated up front (an unsupported region raises during the up-front checks,
given the getter names pass theirs), while for a supported region the run is
identical to one invoked without any region at all: the getter checks alone
contribute, and the configuration comparison is skipped entirely. -/
theorem c10_getter_mode_validates_region_but_skips_config (cls : Driver)
    (gl : List String) (c : String) (source : List (String × Value)) (hgl : gl ≠ []) :
    ((∀ g ∈ gl, (pyStartsWith g "get_" && cls.methods.contains g) = true) →
      c ≠ "" → ¬(c = "running" ∨ c = "candidate") →
      validate cls (some gl) (some c) source =
        .error (.validationException
          (c ++ " config not supported. Only running or candidate are allowed"))) ∧
    ((c = "running" ∨ c = "candidate") →
      validate cls (some gl) (some c) source = validate cls (some gl) none source) := by
  have htr : optListTruthy (some gl) = true := by
    simp [optListTruthy, hgl]
  constructor
  · intro hg hcne hcbad
    have hfind : gl.find? (fun g => !(pyStartsWith g "get_" && cls.methods.contains g)) = none := by
      rw [List.find?_eq_none]
      intro x hx
      rw [hg x hx]
      decide
    have hc1 : c ≠ "running" := fun h => hcbad (Or.inl h)
    have hc2 : c ≠ "candidate" := fun h => hcbad (Or.inr h)
    have hcfg : _check_config c = .error (.validationException
        (c ++ " config not supported. Only running or candidate are allowed")) := by
      rw [_check_config]
      simp [hc1, hc2]
    have hchk : _check_getters cls.methods gl = .ok gl := by
      rw [_check_getters, hfind]
    simp [validate, validateErrors, htr, hchk, optStrTruthy, hcne, hcfg]
  · intro hcval
    have hcfg : _check_config c = .ok () := by
      rcases hcval with h | h <;> simp [_check_config, h]
    have hce : (c == "") = false := by
      rcases hcval with h | h <;> subst h <;> rfl
    rw [validate, validate, validateErrors, validateErrors]
    simp [htr, optStrTruthy, hce, hcfg]

/-- The demonstration driver used by the orchestrator witnesses: it exposes
`get_facts`, whose result has `os` set to `eos`, and one configuration line. -/
def demoDriver : Driver where
  methods := ["get_facts"]
  runGetter := fun _ => .vdict [("os", .vstr "eos")]
  getConfig := fun _ => ["hostname r1"]

/-- C10 witness: with getters present, region `startup` raises up front,
and region `running` yields exactly the run without any region. -/
theorem c10_getter_mode_witness :
    validate demoDriver (some ["get_facts"]) (some "startup") [] =
      .error (.validationException
        "startup config not supported. Only running or candidate are allowed") ∧
    validate demoDriver (some ["get_facts"]) (some "running") [] =
      validate demoDriver (some ["get_facts"]) none [] := by
  constructor
  · exact (c10_getter_mode_validates_region_but_skips_config demoDriver ["get_facts"]
      "startup" [] (by simp)).1
      (by intro g hg; simp at hg; subst hg; decide)
      (by decide) (by simp)
  · exact (c10_getter_mode_validates_region_but_skips_config demoDriver ["get_facts"]
      "running" [] (by simp)).2 (Or.inl rfl)

/-- C8: a region other than `running`/`candidate` raises the configuration
error; for a supported region, the run reports under the fixed label exactly
the expected lines that are not Python-equal to any actual configuration
line, and contributes no error (returning the success marker) when every
expected line is present. -/
theorem c8_config_mode (cls : Driver) (source : List (String × Value)) (c : String)
    (hcne : c ≠ "") :
    (¬(c = "running" ∨ c = "candidate") →
      validate cls none (some c) source =
        .error (.validationException
          (c ++ " config not supported. Only running or candidate are allowed"))) ∧
    ((c = "running" ∨ c = "candidate") →
      ∀ ev, pyFind source c = some ev →
      ∀ missing, _find_config_differences (cls.getConfig c) ev = .ok missing →
        (validate cls none (some c) source =
          .ok (if missing.isEmpty then .success
            else .failure [("Expected but not found in " ++ c ++ " config",
              RVal.l (missing.map RVal.v))])) ∧
        (∀ lines, pyIter ev = .ok lines →
          ∀ line, line ∈ missing ↔
            (line ∈ lines ∧ ∀ a ∈ cls.getConfig c, pyEq line (.vstr a) = false))) := by
  have hctr : optStrTruthy (some c) = true := by
    simp [optStrTruthy, hcne]
  constructor
  · intro hcbad
    have hc1 : c ≠ "running" := fun h => hcbad (Or.inl h)
    have hc2 : c ≠ "candidate" := fun h => hcbad (Or.inr h)
    have hcfg : _check_config c = .error (.validationException
        (c ++ " config not supported. Only running or candidate are allowed")) := by
      rw [_check_config]
      simp [hc1, hc2]
    simp [validate, validateErrors, optListTruthy, hctr, hcfg]
  · intro hcval ev hev missing hmiss
    have hcfg : _check_config c = .ok () := by
      rcases hcval with h | h <;> simp [_check_config, h]
    have hce : (c == "") = false := by
      rcases hcval with h | h <;> subst h <;> rfl
    constructor
    · rw [validate, validateErrors]
      by_cases hm : missing.isEmpty
      · simp [optListTruthy, optStrTruthy, hce, hcfg, configErrors, hev, hmiss, hm]
      · simp [optListTruthy, optStrTruthy, hce, hcfg, configErrors, hev, hmiss, hm]
    · intro lines hlines line
      rw [_find_config_differences, hlines] at hmiss
      have hmiss2 : missing =
          lines.filter (fun l2 => !(cls.getConfig c).any (fun a => pyEq l2 (.vstr a))) := by
        cases hmiss
        rfl
      subst hmiss2
      simp [List.mem_filter, List.any_eq_true]

/-- C8 witness: region `startup` raises; region `running` with one matched
and one missing expected line reports exactly the missing line under the
label, via the membership characterisation. -/
theorem c8_config_mode_witness :
    validate demoDriver none (some "startup") [] =
      .error (.validationException
        "startup config not supported. Only running or candidate are allowed") ∧
    validate demoDriver none (some "running")
      [("running", .vlist [.vbytes "hostname r1", .vbytes "ip route 0.0.0.0/0 10.0.0.1"])] =
      .ok (.failure [("Expected but not found in running config",
        .l [.v (.vbytes "ip route 0.0.0.0/0 10.0.0.1")])]) := by
  constructor
  · exact (c8_config_mode demoDriver [] "startup" (by decide)).1 (by decide)
  · have h := (c8_config_mode demoDriver
      [("running", .vlist [.vbytes "hostname r1", .vbytes "ip route 0.0.0.0/0 10.0.0.1"])]
      "running" (by decide)).2 (Or.inl rfl)
      (.vlist [.vbytes "hostname r1", .vbytes "ip route 0.0.0.0/0 10.0.0.1"])
      (by simp [pyFind])
      [.vbytes "ip route 0.0.0.0/0 10.0.0.1"]
      (by simp [_find_config_differences, pyIter, demoDriver, pyEq.eq_def])
    have h2 := h.1
    simpa using h2

/-- The numeric value of a little-endian digit list. -/
def digitsVal : List Nat → Nat
  | [] => 0
  | d :: rest => d + 10 * digitsVal rest

/-- `natDigits` is a faithful decimal representation: folding it back
recovers the number. -/
theorem digitsVal_natDigits (n : Nat) : digitsVal (natDigits n) = n := by
  induction n using Nat.strong_induction_on with
  | _ n ih =>
    rw [natDigits]
    by_cases h : n = 0
    · simp [h, digitsVal]
    · simp only [h, dite_false]
      rw [digitsVal, ih (n / 10) (Nat.div_lt_self (Nat.pos_of_ne_zero h) (by omega))]
      omega

/-- Decimal digit lists determine their numbers. -/
theorem natDigits_inj {m n : Nat} (h : natDigits m = natDigits n) : m = n := by
  have hm := digitsVal_natDigits m
  have hn := digitsVal_natDigits n
  rw [← hm, ← hn, h]

/-- Every entry of `natDigits` is a digit. -/
theorem natDigits_lt (n : Nat) : ∀ d ∈ natDigits n, d < 10 := by
  induction n using Nat.strong_induction_on with
  | _ n ih =>
    rw [natDigits]
    by_cases h : n = 0
    · simp [h]
    · simp only [h, dite_false, List.mem_cons]
      rintro d (rfl | hd)
      · omega
      · exact ih (n / 10) (Nat.div_lt_self (Nat.pos_of_ne_zero h) (by omega)) d hd

/-- `digitChar` is injective on digits. -/
theorem digitChar_inj : ∀ a < 10, ∀ b < 10, digitChar a = digitChar b → a = b := by
  decide

/-- `digitChar` never produces the minus sign. -/
theorem digitChar_ne_minus : ∀ d < 10, digitChar d ≠ '-' := by
  decide

/-- Mapping `digitChar` over digit lists is injective. -/
theorem map_digitChar_inj : ∀ l1 l2 : List Nat, (∀ d ∈ l1, d < 10) → (∀ d ∈ l2, d < 10) →
    l1.map digitChar = l2.map digitChar → l1 = l2 := by
  intro l1
  induction l1 with
  | nil =>
    intro l2 _ _ h
    cases l2 with
    | nil => rfl
    | cons y ys => simp at h
  | cons x xs ih =>
    intro l2 h1 h2 h
    cases l2 with
    | nil => simp at h
    | cons y ys =>
      simp only [List.map_cons, List.cons.injEq] at h
      have hx : x = y := digitChar_inj x (h1 x (by simp)) y (h2 y (by simp)) h.1
      have hxs : xs = ys := ih ys (fun d hd => h1 d (by simp [hd]))
        (fun d hd => h2 d (by simp [hd])) h.2
      rw [hx, hxs]

/-- Every character of `natStr` is a decimal digit character (never `-`). -/
theorem natStr_ne_minus (k : Nat) : ∀ c ∈ (natStr k).data, c ≠ '-' := by
  rw [natStr]
  by_cases h : k = 0
  · simp only [h, if_true]
    decide
  · simp only [h, if_false]
    intro c hc
    simp only [List.mem_map] at hc
    obtain ⟨d, hd, rfl⟩ := hc
    exact digitChar_ne_minus d (natDigits_lt k d (List.mem_reverse.mp hd))

/-- A `natStr` equal to `"0"` comes from `0`. -/
theorem natStr_zero_unique {n : Nat} (h0 : ['0'] = (natDigits n).reverse.map digitChar) :
    n = 0 := by
  have hdig : natDigits n = [0] := by
    cases hrev : (natDigits n).reverse with
    | nil => rw [hrev] at h0; simp at h0
    | cons d rest =>
      rw [hrev] at h0
      cases rest with
      | nil =>
        simp only [List.map_cons, List.map_nil, List.cons.injEq] at h0
        have hlt : d < 10 := natDigits_lt n d (List.mem_reverse.mp (by rw [hrev]; simp))
        have hd0 : 0 = d := digitChar_inj 0 (by omega) d hlt h0.1
        have hrev2 : natDigits n = [d] := by
          have := congrArg List.reverse hrev
          simpa using this
        rw [hrev2, ← hd0]
      | cons d2 rest2 => simp at h0
  have hv := digitsVal_natDigits n
  rw [hdig] at hv
  simpa [digitsVal] using hv.symm

/-- `natStr` (the Python decimal form of a natural) is injective. -/
theorem natStr_inj {m n : Nat} (h : natStr m = natStr n) : m = n := by
  have hd : (natStr m).data = (natStr n).data := by rw [h]
  rw [natStr, natStr] at hd
  by_cases hm : m = 0 <;> by_cases hn : n = 0
  · rw [hm, hn]
  · exfalso
    simp only [hm, hn, if_true, if_false] at hd
    exact hn (natStr_zero_unique hd)
  · exfalso
    simp only [hm, hn, if_true, if_false] at hd
    exact hm (natStr_zero_unique hd.symm)
  · simp only [hm, hn, if_false] at hd
    have hmaps := map_digitChar_inj (natDigits m).reverse (natDigits n).reverse
      (fun d hdm => natDigits_lt m d (List.mem_reverse.mp hdm))
      (fun d hdn => natDigits_lt n d (List.mem_reverse.mp hdn)) hd
    exact natDigits_inj (List.reverse_injective hmaps)

/-- `intStr` (the Python decimal form of an `int`) is injective. -/
theorem intStr_inj {m n : Int} (h : intStr m = intStr n) : m = n := by
  rw [intStr, intStr] at h
  by_cases hm : m < 0 <;> by_cases hn : n < 0
  · simp only [hm, hn, if_true] at h
    have hdata := congrArg String.data h
    rw [String.data_append, String.data_append] at hdata
    have habs : m.natAbs = n.natAbs := by
      apply natStr_inj
      apply String.ext
      exact (List.cons.injEq _ _ _ _ ▸ hdata : _ ∧ _).2
    omega
  · exfalso
    simp only [hm, hn, if_true, if_false] at h
    have hdata := congrArg String.data h
    rw [String.data_append] at hdata
    have hmem : '-' ∈ (natStr n.natAbs).data := by
      rw [← hdata]
      simp
    exact natStr_ne_minus n.natAbs '-' hmem rfl
  · exfalso
    simp only [hm, hn, if_true, if_false] at h
    have hdata := congrArg String.data h.symm
    rw [String.data_append] at hdata
    have hmem : '-' ∈ (natStr m.natAbs).data := by
      rw [← hdata]
      simp
    exact natStr_ne_minus m.natAbs '-' hmem rfl
  · simp only [hm, hn, if_false] at h
    have habs := natStr_inj h
    omega

/-- Expected and actual values that are scalars of the same Python kind
(text and text, `int` and `int`, or `bool` and `bool`). -/
def sameScalarKind : Value → Value → Bool
  | .vstr _, .vstr _ => true
  | .vint _, .vint _ => true
  | .vbool _, .vbool _ => true
  | _, _ => false

/-- With distinct keys, every stored pair is what lookup finds. -/
theorem pyFind_of_nodup_mem {d : List (String × Value)}
    (hnd : (d.map Prod.fst).Nodup) {k : String} {v : Value} (hm : (k, v) ∈ d) :
    pyFind d k = some v := by
  induction d with
  | nil => cases hm
  | cons q rest ih =>
    obtain ⟨k2, u⟩ := q
    rw [pyFind]
    rcases List.mem_cons.mp hm with heq | hmem
    · cases heq
      simp
    · have hk : k2 ≠ k := by
        intro hc
        subst hc
        have : k2 ∈ rest.map Prod.fst := List.mem_map.mpr ⟨(k2, v), hmem, rfl⟩
        exact (List.nodup_cons.mp hnd).1 this
      simp only [beq_eq_false_iff_ne.mpr hk, if_false]
      exact ih (List.nodup_cons.mp hnd).2 hmem

/-- A key absent from every entry defeats the item-membership scan. -/
theorem any_key_false {k : String} {v : Value} (rest : List (String × Value))
    (h : ∀ q ∈ rest, q.1 ≠ k) :
    rest.any (fun q => q.1 == k && pyEq v q.2) = false := by
  rw [List.any_eq_false]
  intro q hq
  simp [h q hq]

/-- A successful lookup comes from a stored entry. -/
theorem pyFind_mem {d : List (String × Value)} {k : String} {w : Value}
    (hf : pyFind d k = some w) : (k, w) ∈ d := by
  induction d with
  | nil => simp [pyFind] at hf
  | cons q rest ih =>
    obtain ⟨k2, u⟩ := q
    rw [pyFind] at hf
    split at hf
    · cases hf
      rename_i hk
      rw [beq_iff_eq.mp hk]
      simp
    · simp [ih hf]

/-- With distinct actual keys, item membership of `(k, v)` reduces to Python
equality with the value stored under `k`. -/
theorem pairMem_eq_of_nodup {ad : List (String × Value)}
    (hna : (ad.map Prod.fst).Nodup) {k : String} {v w : Value}
    (hf : pyFind ad k = some w) : pairMem (k, v) ad = pyEq v w := by
  apply Bool.eq_iff_iff.mpr
  rw [pairMem, List.any_eq_true]
  constructor
  · rintro ⟨q, hq, hqq⟩
    simp only [Bool.and_eq_true, beq_iff_eq] at hqq
    obtain ⟨hk, hpe⟩ := hqq
    obtain ⟨q1, q2⟩ := q
    simp only at hk hpe
    subst hk
    have hq2 : pyFind ad q1 = some q2 := pyFind_of_nodup_mem hna hq
    rw [hf] at hq2
    cases hq2
    exact hpe
  · intro hpe
    exact ⟨(k, w), pyFind_mem hf, by simp [hpe]⟩

/-- `str` of an `int` value. -/
theorem pyStr_vint (n : Int) : pyStr (.vint n) = intStr n := by
  simp [pyStr, pyRepr]

/-- `str` of a `bool` value. -/
theorem pyStr_vbool (b : Bool) : pyStr (.vbool b) = if b then "True" else "False" := by
  simp [pyStr, pyRepr]

/-- The scalar-comparison result is truthy exactly when the `str` forms
disagree. -/
theorem rTruthy_scalarRes (a e : Value) :
    rTruthy (scalarRes a e) = !(pyStr a == pyStr e) := by
  rw [scalarRes]
  by_cases h : pyStr a = pyStr e
  · simp [rTruthy, _handle_unicode_int, h]
  · have hmsg : _handle_unicode_int a e =
        "Expected '" ++ pyStr e ++ "', found '" ++ pyStr a ++ "' instead" := by
      rw [_handle_unicode_int]
      simp [h]
    have hne2 : ("Expected '" ++ pyStr e ++ "', found '" ++ pyStr a ++ "' instead") ≠ "" :=
      ne_empty_of_data (data_ne_nil_append _ (data_ne_nil_append _ (data_ne_nil_append _
        (data_ne_nil_append _ (by decide)))))
    simp [rTruthy, hmsg, hne2, h]

/-- For scalars of the same kind, Python equality coincides with equality of
the normalized string forms (for integers, by injectivity of the decimal
form). -/
theorem pyEq_eq_strEq_of_kind {v w : Value} (h : sameScalarKind v w = true) :
    pyEq v w = (pyStr w == pyStr v) := by
  cases v <;> cases w <;> simp [sameScalarKind] at h
  · rename_i a b
    rw [pyEq]
    apply Bool.eq_iff_iff.mpr
    simp only [pyStr, beq_iff_eq]
    exact eq_comm
  · rename_i a b
    rw [pyEq, pyStr_vint, pyStr_vint]
    apply Bool.eq_iff_iff.mpr
    simp only [beq_iff_eq]
    constructor
    · intro heq
      rw [heq]
    · intro heq
      exact (intStr_inj heq).symm
  · rename_i a b
    rw [pyEq, pyStr_vbool, pyStr_vbool]
    cases a <;> cases b <;> simp

/-- The reporting loop of the set-difference branch, when every processed key
is present in the actual mapping: one fully determined message per pair. -/
theorem fastLoop_all_present (ad : List (String × Value)) :
    ∀ l, (∀ p ∈ l, ∃ w, pyFind ad p.1 = some w) →
    fastLoop ad l = .ok (l.map (fun p => RVal.s (isUni p.2 || isUni (pyGet ad p.1))
      ("Expected '" ++ p.1 ++ ": " ++ pyStr p.2 ++ "', found '" ++ p.1 ++ ": "
        ++ pyStr (pyGet ad p.1) ++ "' instead"))) := by
  intro l
  induction l with
  | nil =>
    intro _
    simp [fastLoop]
  | cons p rest ih =>
    intro h
    obtain ⟨w, hw⟩ := h p (by simp)
    obtain ⟨k, v⟩ := p
    rw [fastLoop, pyIndex, hw, ih (fun q hq => h q (by simp [hq]))]
    simp [pyGet, hw]

/-- The `except TypeError` branch over keys that are all bound to same-kind
scalars on both sides: it stores, in order, exactly the keys whose item
pairs are missing from the actual item set, each with the scalar-rule
result. -/
theorem slowLoop_scalar (ad ed : List (String × Value))
    (hna : (ad.map Prod.fst).Nodup) :
    ∀ rem, (∀ p ∈ rem, pyFind ed p.1 = some p.2 ∧
        ∃ w, pyFind ad p.1 = some w ∧ sameScalarKind p.2 w = true) →
    slowLoop ad ed rem = .ok ((rem.filter (fun p => !pairMem p ad)).map
      (fun p => (p.1, scalarRes (pyGet ad p.1) p.2))) := by
  intro rem
  induction rem with
  | nil =>
    intro _
    simp [slowLoop]
  | cons p rest ih =>
    intro h
    obtain ⟨hfed, w, hfad, hkind⟩ := h p (by simp)
    obtain ⟨k, v⟩ := p
    simp only at hfed hfad hkind
    have hget : pyGet ad k = w := by
      rw [pyGet, hfad]
    have hidx : pyIndex ed k = .ok v := by
      rw [pyIndex, hfed]
    have hfind : _find_differences k (pyGet ad k) ed = .ok (scalarRes w v) := by
      rw [hget]
      cases v <;> cases w <;> simp [sameScalarKind] at hkind
      · rw [_find_differences, hidx]
      · rw [_find_differences, hidx]
      · rw [_find_differences, hidx]
    have htr : rTruthy (scalarRes w v) = !pairMem (k, v) ad := by
      rw [rTruthy_scalarRes, pairMem_eq_of_nodup hna hfad, pyEq_eq_strEq_of_kind hkind]
    rw [slowLoop, hfind, ih (fun q hq => h q (by simp [hq]))]
    rw [List.filter_cons]
    by_cases hmem : pairMem (k, v) ad = true
    · simp [htr, hmem, hget]
    · simp only [Bool.not_eq_true] at hmem
      simp [htr, hmem, hget]

/-- C4 counterexample: three flat mappings whose values are all scalars on
which the set-difference branch and the general per-key rule disagree.
With the expected key `a` absent from the actual mapping, the fast branch
raises `KeyError` while the general rule reports `Expected key but not
found.`; with `a` bound to `None` on both sides, the fast branch reports
nothing while the general rule reports a missing key; with expected `42`
against actual `u'42'`, the fast branch reports a mismatch (Python
inequality) while the general rule reports nothing (equal `str` forms). -/
theorem c4_fast_slow_counterexample :
    (fastPath [] [("a", .vstr "1")] = .error (.keyError "a") ∧
      slowPath [] [("a", .vstr "1")] =
        .ok (.d [("a", .s false "Expected key but not found.")])) ∧
    (fastPath [("a", .vnone)] [("a", .vnone)] = .ok (.l []) ∧
      slowPath [("a", .vnone)] [("a", .vnone)] =
        .ok (.d [("a", .s false "Expected key but not found.")])) ∧
    (fastPath [("a", .vstr "42")] [("a", .vint 42)] =
        .ok (.l [.s true "Expected 'a: 42', found 'a: 42' instead"]) ∧
      slowPath [("a", .vstr "42")] [("a", .vint 42)] = .ok (.d [])) := by
  refine ⟨⟨?_, ?_⟩, ⟨?_, ?_⟩, ⟨?_, ?_⟩⟩
  · simp [fastPath, fastLoop, pairMem, pyIndex, pyFind, Except.map]
  · simp [slowPath, slowLoop.eq_def, _find_differences.eq_def, pyGet, pyFind, rTruthy,
      Except.map]
  · simp [fastPath, fastLoop, pairMem, pyEq.eq_def, pyIndex, pyFind, Except.map]
  · simp [slowPath, slowLoop.eq_def, _find_differences.eq_def, pyGet, pyFind, rTruthy,
      Except.map]
  · simp [fastPath, fastLoop, pairMem, pyEq.eq_def, pyIndex, pyFind, isUni,
      pyStr.eq_def, pyRepr.eq_def, intStr, natStr, natDigits, digitChar, Except.map]
  · simp [slowPath, slowLoop.eq_def, _find_differences.eq_def, pyGet, pyFind, rTruthy,
      scalarRes, _handle_unicode_int, pyStr.eq_def, pyRepr.eq_def, intStr, natStr,
      natDigits, digitChar, pyIndex, Except.map]

/-- C4 amended: for mappings with distinct keys whose values are all scalars,
the set-difference branch is equivalent to the general per-key recursive rule
*provided* every expected key is present in the actual mapping with a value
of the same scalar kind (the counterexample shows all three provisos are
necessary: a missing key makes the fast branch raise `KeyError`, a `None`
value makes the general rule report a spurious missing key, and a mixed
`int`/text pair makes the two rules disagree through `str` coercion).
Under the provisos both branches report exactly the keys of `delta` — the
expected pairs that are not Python-equal to their actual counterparts — in
expected order, and in particular each reports nothing exactly when the
other does. -/
theorem c4_fast_slow_equiv (ad ed : List (String × Value))
    (hna : (ad.map Prod.fst).Nodup) (hne : (ed.map Prod.fst).Nodup)
    (hkinds : ∀ p ∈ ed, ∃ w, pyFind ad p.1 = some w ∧ sameScalarKind p.2 w = true) :
    fastPath ad ed = .ok (.l ((ed.filter (fun p => !pairMem p ad)).map
      (fun p => RVal.s (isUni p.2 || isUni (pyGet ad p.1))
        ("Expected '" ++ p.1 ++ ": " ++ pyStr p.2 ++ "', found '" ++ p.1 ++ ": "
          ++ pyStr (pyGet ad p.1) ++ "' instead")))) ∧
    slowPath ad ed = .ok (.d ((ed.filter (fun p => !pairMem p ad)).map
      (fun p => (p.1, scalarRes (pyGet ad p.1) p.2)))) ∧
    rTruthy (RVal.l ((ed.filter (fun p => !pairMem p ad)).map
      (fun p => RVal.s (isUni p.2 || isUni (pyGet ad p.1))
        ("Expected '" ++ p.1 ++ ": " ++ pyStr p.2 ++ "', found '" ++ p.1 ++ ": "
          ++ pyStr (pyGet ad p.1) ++ "' instead")))) =
      rTruthy (RVal.d ((ed.filter (fun p => !pairMem p ad)).map
        (fun p => (p.1, scalarRes (pyGet ad p.1) p.2)))) := by
  refine ⟨?_, ?_, ?_⟩
  · rw [fastPath, fastLoop_all_present ad _ (fun p hp => ?_)]
    · rfl
    · obtain ⟨w, hw, _⟩ := hkinds p (List.mem_of_mem_filter hp)
      exact ⟨w, hw⟩
  · rw [slowPath, slowLoop_scalar ad ed hna ed (fun p hp => ?_)]
    · rfl
    · exact ⟨pyFind_of_nodup_mem hne hp, hkinds p hp⟩
  · cases ed.filter (fun p => !pairMem p ad) <;> simp [rTruthy]

/-- C4 witness: a two-key flat mapping with one equal and one differing
string value; both branches report exactly the differing key `a`. -/
theorem c4_fast_slow_equiv_witness :
    fastPath [("a", .vstr "1"), ("b", .vint 2)] [("a", .vstr "x"), ("b", .vint 2)] =
      .ok (.l [.s true "Expected 'a: x', found 'a: 1' instead"]) ∧
    slowPath [("a", .vstr "1"), ("b", .vint 2)] [("a", .vstr "x"), ("b", .vint 2)] =
      .ok (.d [("a", .s true "Expected 'x', found '1' instead")]) := by
  have h := c4_fast_slow_equiv [("a", .vstr "1"), ("b", .vint 2)]
    [("a", .vstr "x"), ("b", .vint 2)]
    (by simp) (by simp)
    (by
      intro p hp
      simp only [List.mem_cons, List.not_mem_nil, or_false] at hp
      rcases hp with rfl | rfl
      · exact ⟨.vstr "1", by simp [pyFind], rfl⟩
      · exact ⟨.vint 2, by simp [pyFind], rfl⟩)
  have hfl : List.filter (fun p => !pairMem p [("a", Value.vstr "1"), ("b", Value.vint 2)])
      [("a", Value.vstr "x"), ("b", Value.vint 2)] = [("a", Value.vstr "x")] := by
    simp [pairMem, pyEq.eq_def]
  refine ⟨?_, ?_⟩
  · rw [h.1, hfl]
    simp only [List.map_cons, List.map_nil]
    simp only [pyGet, pyFind]
    norm_num
    simp only [isUni]
    simp [pyStr.eq_def, pyRepr.eq_def]
  · rw [h.2.1, hfl]
    simp only [List.map_cons, List.map_nil]
    simp only [pyGet, pyFind]
    norm_num
    simp [scalarRes, _handle_unicode_int, isUni, pyStr.eq_def, pyRepr.eq_def]

/-- Scalar kinds (everything hashable and self-equal under Python `==`):
text, byte strings, integers and booleans. -/
def isScalarSB : Value → Bool
  | .vstr _ => true
  | .vbytes _ => true
  | .vint _ => true
  | .vbool _ => true
  | _ => false

/-- Whether a value is a dict. -/
def isVdict : Value → Bool
  | .vdict _ => true
  | _ => false

/-- Distinctness of the keys of an association list, as a Boolean. -/
def nodupKeysB : List (String × Value) → Bool
  | [] => true
  | (k, _) :: rest => !(rest.any (fun q => q.1 == k)) && nodupKeysB rest

/-- A mapping with distinct keys whose values are all scalars. -/
def isFlatScalarDict : Value → Bool
  | .vdict d => nodupKeysB d && d.all (fun p => isScalarSB p.2)
  | _ => false

mutual

/-- The value trees on which self-comparison is well behaved (see the C5
theorems): scalars other than the null marker; mappings with distinct keys
(as Python dicts have) and self-safe values; sequences that either contain
no mapping and have self-safe elements, or consist entirely of flat
scalar-valued mappings. -/
def selfSafe : Value → Bool
  | .vstr _ => true
  | .vbytes _ => true
  | .vint _ => true
  | .vbool _ => true
  | .vnone => false
  | .vtuple _ => false
  | .vdict d => nodupKeysB d && selfSafeEntries d
  | .vlist l => if l.any isVdict then l.all isFlatScalarDict else selfSafeList l
termination_by v => sizeOf v

/-- All values of the entries are self-safe. -/
def selfSafeEntries : List (String × Value) → Bool
  | [] => true
  | (_, v) :: rest => selfSafe v && selfSafeEntries rest
termination_by d => sizeOf d

/-- All elements are self-safe. -/
def selfSafeList : List Value → Bool
  | [] => true
  | v :: rest => selfSafe v && selfSafeList rest
termination_by l => sizeOf l

end

/-- A stored value is structurally smaller than its association list. -/
theorem sizeOf_val_lt {d : List (String × Value)} {k : String} {v : Value}
    (h : (k, v) ∈ d) : sizeOf v < sizeOf d := by
  have h1 := List.sizeOf_lt_of_mem h
  simp only [Prod.mk.sizeOf_spec] at h1
  omega

/-- Boolean key distinctness gives the propositional one. -/
theorem nodupKeysB_nodup : ∀ d : List (String × Value), nodupKeysB d = true →
    (d.map Prod.fst).Nodup := by
  intro d
  induction d with
  | nil =>
    intro _
    simp
  | cons p rest ih =>
    obtain ⟨k, v⟩ := p
    intro h
    rw [nodupKeysB, Bool.and_eq_true] at h
    obtain ⟨hhead, htail⟩ := h
    rw [List.map_cons, List.nodup_cons]
    refine ⟨?_, ih htail⟩
    intro hmem
    obtain ⟨q, hq, hqk⟩ := List.mem_map.mp hmem
    have : rest.any (fun q => q.1 == k) = true :=
      List.any_eq_true.mpr ⟨q, hq, by simp [hqk]⟩
    simp [this] at hhead

/-- Members of a self-safe entry list have self-safe values. -/
theorem selfSafeEntries_mem : ∀ d : List (String × Value), selfSafeEntries d = true →
    ∀ p ∈ d, selfSafe p.2 = true := by
  intro d
  induction d with
  | nil =>
    intro _ p hp
    cases hp
  | cons q rest ih =>
    obtain ⟨k, v⟩ := q
    intro h p hp
    rw [selfSafeEntries, Bool.and_eq_true] at h
    rcases List.mem_cons.mp hp with heq | hmem
    · rw [heq]
      exact h.1
    · exact ih h.2 p hmem

/-- Members of a self-safe element list are self-safe. -/
theorem selfSafeList_mem : ∀ l : List Value, selfSafeList l = true →
    ∀ v ∈ l, selfSafe v = true := by
  intro l
  induction l with
  | nil =>
    intro _ v hv
    cases hv
  | cons e rest ih =>
    intro h v hv
    rw [selfSafeList, Bool.and_eq_true] at h
    rcases List.mem_cons.mp hv with heq | hmem
    · rw [heq]
      exact h.1
    · exact ih h.2 v hmem

/-- Scalars are self-safe. -/
theorem isScalarSB_selfSafe {v : Value} (h : isScalarSB v = true) : selfSafe v = true := by
  cases v <;> simp [isScalarSB] at h <;> simp [selfSafe]

/-- Scalars are hashable. -/
theorem isScalarSB_hashable {v : Value} (h : isScalarSB v = true) : hashableV v = true := by
  cases v <;> simp [isScalarSB] at h <;> simp [hashableV]

/-- Scalars are Python-equal to themselves. -/
theorem pyEq_refl_scalarSB {v : Value} (h : isScalarSB v = true) : pyEq v v = true := by
  cases v <;> simp [isScalarSB] at h <;> simp [pyEq]

/-- Scalar-valued entry lists are self-safe entry lists. -/
theorem selfSafeEntries_of_scalar : ∀ d : List (String × Value),
    (∀ p ∈ d, isScalarSB p.2 = true) → selfSafeEntries d = true := by
  intro d
  induction d with
  | nil =>
    intro _
    rw [selfSafeEntries]
  | cons q rest ih =>
    obtain ⟨k, v⟩ := q
    intro h
    rw [selfSafeEntries, Bool.and_eq_true]
    exact ⟨isScalarSB_selfSafe (h (k, v) (by simp)), ih (fun p hp => h p (by simp [hp]))⟩

/-- Flat scalar dicts are self-safe. -/
theorem isFlatScalarDict_selfSafe {v : Value} (h : isFlatScalarDict v = true) :
    selfSafe v = true := by
  cases v
  case vdict d =>
    rw [isFlatScalarDict, Bool.and_eq_true, List.all_eq_true] at h
    rw [selfSafe, Bool.and_eq_true]
    exact ⟨h.1, selfSafeEntries_of_scalar d h.2⟩
  all_goals simp [isFlatScalarDict] at h

/-- Flat scalar dicts have hashable values. -/
theorem isFlatScalarDict_hashable {d : List (String × Value)}
    (h : isFlatScalarDict (Value.vdict d) = true) : hashableEntries d = true := by
  rw [isFlatScalarDict, Bool.and_eq_true, List.all_eq_true] at h
  rw [hashableEntries, List.all_eq_true]
  intro p hp
  exact isScalarSB_hashable (h.2 p hp)

/-- With distinct keys, the first-match scan for a stored pair finds that
pair's own value, so self-equality of the value settles the scan. -/
theorem pyLookupEq_self : ∀ d : List (String × Value), nodupKeysB d = true →
    ∀ k v, (k, v) ∈ d → pyEq v v = true → pyLookupEq k v d = true := by
  intro d
  induction d with
  | nil =>
    intro _ k v hv
    cases hv
  | cons q rest ih =>
    obtain ⟨k2, w⟩ := q
    intro hnd k v hv hre
    rw [nodupKeysB, Bool.and_eq_true] at hnd
    rw [pyLookupEq]
    by_cases hk : k = k2
    · subst hk
      simp only [beq_self_eq_true, if_true]
      rcases List.mem_cons.mp hv with heq | hmem
      · cases heq
        exact hre
      · exfalso
        have h2 := hnd.1
        simp only [Bool.not_eq_true', List.any_eq_false] at h2
        exact h2 (k, v) hmem (by simp)
    · rw [beq_eq_false_iff_ne.mpr hk]
      simp only [Bool.false_eq_true, if_false]
      rcases List.mem_cons.mp hv with heq | hmem
      · exfalso
        apply hk
        exact congrArg Prod.fst heq
      · exact ih hnd.2 k v hmem hre

/-- Self-safe values are Python-equal to themselves. -/
theorem pyEq_refl_main : ∀ n : Nat, ∀ v : Value, sizeOf v ≤ n → selfSafe v = true →
    pyEq v v = true := by
  intro n
  induction n using Nat.strong_induction_on with
  | _ n ih =>
    intro v hsz hsafe
    cases v with
    | vstr s => rw [pyEq]; simp
    | vbytes s => rw [pyEq]; simp
    | vint m => rw [pyEq]; simp
    | vbool b => rw [pyEq]; simp
    | vnone => simp [selfSafe] at hsafe
    | vtuple l => simp [selfSafe] at hsafe
    | vlist l =>
      rw [pyEq]
      have hvsz : sizeOf (Value.vlist l) = 1 + sizeOf l := by simp
      have helems : ∀ e ∈ l, selfSafe e = true := by
        rw [selfSafe] at hsafe
        by_cases hd : l.any isVdict
        · rw [if_pos hd, List.all_eq_true] at hsafe
          exact fun e he => isFlatScalarDict_selfSafe (hsafe e he)
        · rw [if_neg hd] at hsafe
          exact selfSafeList_mem l hsafe
      have haux : ∀ l2 : List Value, (∀ e ∈ l2, e ∈ l) → pyEqList l2 l2 = true := by
        intro l2
        induction l2 with
        | nil =>
          intro _
          rw [pyEqList]
        | cons e rest ihl =>
          intro hmem
          rw [pyEqList, Bool.and_eq_true]
          have hesz : sizeOf e < n := by
            have := List.sizeOf_lt_of_mem (hmem e (by simp))
            omega
          exact ⟨ih (sizeOf e) hesz e le_rfl (helems e (hmem e (by simp))),
            ihl (fun q hq => hmem q (by simp [hq]))⟩
      exact haux l (fun e he => he)
    | vdict d =>
      rw [pyEq, Bool.and_eq_true]
      rw [selfSafe, Bool.and_eq_true] at hsafe
      obtain ⟨hnd, hent⟩ := hsafe
      have hdsz : sizeOf (Value.vdict d) = 1 + sizeOf d := by simp
      refine ⟨by simp, ?_⟩
      have haux : ∀ rem : List (String × Value), (∀ p ∈ rem, p ∈ d) →
          pyEqEntries rem d = true := by
        intro rem
        induction rem with
        | nil =>
          intro _
          rw [pyEqEntries]
        | cons p rest ihr =>
          obtain ⟨k2, v2⟩ := p
          intro hmem
          rw [pyEqEntries, Bool.and_eq_true]
          have hvmem : (k2, v2) ∈ d := hmem _ (by simp)
          have hvsz : sizeOf v2 < n := by
            have := sizeOf_val_lt hvmem
            omega
          refine ⟨?_, ihr (fun q hq => hmem q (by simp [hq]))⟩
          exact pyLookupEq_self d hnd k2 v2 hvmem
            (ih (sizeOf v2) hvsz v2 le_rfl (selfSafeEntries_mem d hent _ hvmem))
      exact haux d (fun p hp => hp)

/-- Self-safe values are Python-equal to themselves (packaged form). -/
theorem pyEq_refl_selfSafe {v : Value} (h : selfSafe v = true) : pyEq v v = true :=
  pyEq_refl_main (sizeOf v) v le_rfl h

/-- Destructor for a mapped `Except` that produced a success. -/
theorem except_map_ok {α β : Type} {e : Except PyExc α} {f : α → β} {b : β}
    (h : e.map f = .ok b) : ∃ r, e = .ok r ∧ f r = b := by
  cases e with
  | error err => simp [Except.map] at h
  | ok r =>
    refine ⟨r, rfl, ?_⟩
    simpa [Except.map] using h

/-- The inner `_handle_list` scan over flat scalar-dict actual elements:
no exception, and `found` accumulates whether some actual dict contains
every expected pair. -/
theorem dictElemLoop_flat (d : List (String × Value)) (hd : hashableEntries d = true) :
    ∀ avs (b : Bool), (∀ av ∈ avs, isFlatScalarDict av = true) →
    dictElemLoop d avs b = .ok (b || avs.any (fun av =>
      match av with
      | .vdict avd => (d.filter (fun p => !pairMem p avd)).isEmpty
      | _ => false)) := by
  intro avs
  induction avs with
  | nil =>
    intro b _
    rw [dictElemLoop]
    simp
  | cons av rest ih =>
    intro b hflat
    have hav := hflat av (by simp)
    cases av
    case vdict avd =>
      have havh : hashableEntries avd = true := isFlatScalarDict_hashable hav
      rw [dictElemLoop]
      simp only [hd, havh, Bool.not_true, Bool.false_eq_true, if_false]
      rw [ih (b || (d.filter (fun p => !pairMem p avd)).isEmpty)
        (fun x hx => hflat x (by simp [hx]))]
      simp [Bool.or_assoc]
    all_goals simp [isFlatScalarDict] at hav

/-- The `_handle_list` main loop with an empty carried message: when every
remaining expected element finds a match, the loop leaves the accumulator
unchanged (the carried message stays empty throughout). -/
theorem listLoop_matched (avs : List Value) : ∀ rem (uni : Bool) (acc : List RVal),
    (∀ value ∈ rem, (∀ dd, value = Value.vdict dd → dictElemLoop dd avs false = .ok true) ∧
      (isVdict value = false → avs.any (fun av => pyEq value av) = true)) →
    listLoop avs rem uni "" acc = .ok acc := by
  intro rem
  induction rem with
  | nil =>
    intro uni acc _
    rw [listLoop]
  | cons value rest ih =>
    intro uni acc h
    obtain ⟨h1, h2⟩ := h value (by simp)
    have hrest : ∀ v ∈ rest,
        (∀ dd, v = Value.vdict dd → dictElemLoop dd avs false = .ok true) ∧
        (isVdict v = false → avs.any (fun av => pyEq v av) = true) :=
      fun v hv => h v (by simp [hv])
    cases value
    case vdict dd =>
      have hfound := h1 dd rfl
      rw [listLoop]
      simp [hfound]
      exact ih uni acc hrest
    all_goals
      (have hmem := h2 rfl
       rw [listLoop]
       simp [hmem]
       exact ih uni acc hrest
       exact fun _ h3 => Value.noConfusion h3)

/-- Self-comparison of a self-safe tree, by strong induction on size: looked
up as the expected value under its key, a tree compared against itself never
raises and produces a falsy (empty) result. -/
theorem c5_main : ∀ n : Nat, ∀ v : Value, sizeOf v ≤ n → selfSafe v = true →
    ∀ k evs, pyFind evs k = some v →
    (_find_differences k v evs).map rTruthy = .ok false := by
  intro n
  induction n using Nat.strong_induction_on with
  | _ n ih =>
    intro v hsz hsafe k evs hfind
    have hidx : pyIndex evs k = .ok v := by
      rw [pyIndex, hfind]
    cases v with
    | vstr s =>
      rw [_find_differences, hidx]
      simp [Except.map, rTruthy_scalarRes]
    | vint m =>
      rw [_find_differences, hidx]
      simp [Except.map, rTruthy_scalarRes]
    | vbool b =>
      rw [_find_differences, hidx]
      simp [Except.map, rTruthy_scalarRes]
    | vbytes s =>
      rw [_find_differences]
      simp [Except.map, rTruthy]
    | vnone => simp [selfSafe] at hsafe
    | vtuple l => simp [selfSafe] at hsafe
    | vdict ad =>
      rw [_find_differences, hidx]
      show (_handle_dict ad (Value.vdict ad)).map rTruthy = .ok false
      rw [selfSafe, Bool.and_eq_true] at hsafe
      obtain ⟨hnd, hent⟩ := hsafe
      have hdsz : sizeOf (Value.vdict ad) = 1 + sizeOf ad := by simp
      rw [_handle_dict]
      by_cases hh : hashableEntries ad = true
      · simp only [hh, Bool.and_self, if_true]
        have hdelta : ad.filter (fun p => !pairMem p ad) = [] := by
          apply List.filter_eq_nil_iff.mpr
          intro p hp
          have hsafe_p : selfSafe p.2 = true := selfSafeEntries_mem ad hent p hp
          have hpm : pairMem p ad = true :=
            List.any_eq_true.mpr ⟨p, hp, by simp [pyEq_refl_selfSafe hsafe_p]⟩
          simp [hpm]
        rw [fastPath, hdelta, fastLoop]
        simp [Except.map, rTruthy]
      · simp only [Bool.not_eq_true] at hh
        simp only [hh, Bool.and_self, Bool.false_eq_true, if_false]
        have hslow : ∀ rem : List (String × Value), (∀ p ∈ rem, p ∈ ad) →
            slowLoop ad ad rem = .ok [] := by
          intro rem
          induction rem with
          | nil =>
            intro _
            rw [slowLoop]
          | cons p rest ihr =>
            obtain ⟨k2, v2⟩ := p
            intro hmem
            have hpmem : (k2, v2) ∈ ad := hmem _ (by simp)
            have hf2 : pyFind ad k2 = some v2 :=
              pyFind_of_nodup_mem (nodupKeysB_nodup ad hnd) hpmem
            have hget : pyGet ad k2 = v2 := by
              rw [pyGet, hf2]
            have hv2sz : sizeOf v2 < n := by
              have := sizeOf_val_lt hpmem
              omega
            have hrec := ih (sizeOf v2) hv2sz v2 le_rfl
              (selfSafeEntries_mem ad hent _ hpmem) k2 ad hf2
            obtain ⟨r, hr, hrt⟩ := except_map_ok hrec
            rw [slowLoop, hget, hr, ihr (fun q hq => hmem q (by simp [hq]))]
            simp [hrt]
        rw [hslow ad (fun q hq => hq)]
        simp [Except.map, rTruthy]
    | vlist al =>
      rw [_find_differences, hidx]
      show (_handle_list al (Value.vlist al)).map rTruthy = .ok false
      rw [_handle_list]
      show ((listLoop al al false "" []).map RVal.l).map rTruthy = .ok false
      rw [selfSafe] at hsafe
      by_cases hdicts : al.any isVdict = true
      · rw [if_pos hdicts, List.all_eq_true] at hsafe
        have hmatch : ∀ value ∈ al,
            (∀ dd, value = Value.vdict dd → dictElemLoop dd al false = .ok true) ∧
            (isVdict value = false → al.any (fun av => pyEq value av) = true) := by
          intro value hv
          constructor
          · intro dd hvd
            subst hvd
            have hflat := hsafe _ hv
            have hdh : hashableEntries dd = true := isFlatScalarDict_hashable hflat
            rw [dictElemLoop_flat dd hdh al false (fun x hx => hsafe x hx)]
            have hself : dd.filter (fun p => !pairMem p dd) = [] := by
              apply List.filter_eq_nil_iff.mpr
              intro p hp
              have hsc : isScalarSB p.2 = true := by
                have hflat2 := hflat
                rw [isFlatScalarDict, Bool.and_eq_true, List.all_eq_true] at hflat2
                exact hflat2.2 p hp
              have hpm : pairMem p dd = true :=
                List.any_eq_true.mpr ⟨p, hp, by simp [pyEq_refl_scalarSB hsc]⟩
              simp [hpm]
            have hany : al.any (fun av => match av with
                | .vdict avd => (dd.filter (fun p => !pairMem p avd)).isEmpty
                | _ => false) = true := by
              apply List.any_eq_true.mpr
              refine ⟨Value.vdict dd, hv, ?_⟩
              show (dd.filter (fun p => !pairMem p dd)).isEmpty = true
              rw [hself]
              rfl
            rw [hany]
            simp
          · intro hnv
            have hflat := hsafe _ hv
            cases value <;> simp_all [isFlatScalarDict, isVdict]
        rw [listLoop_matched al al false [] hmatch]
        simp [Except.map, rTruthy]
      · rw [if_neg hdicts] at hsafe
        have hmatch : ∀ value ∈ al,
            (∀ dd, value = Value.vdict dd → dictElemLoop dd al false = .ok true) ∧
            (isVdict value = false → al.any (fun av => pyEq value av) = true) := by
          intro value hv
          constructor
          · intro dd hvd
            exfalso
            apply hdicts
            apply List.any_eq_true.mpr
            exact ⟨value, hv, by rw [hvd]; rfl⟩
          · intro _
            exact List.any_eq_true.mpr
              ⟨value, hv, pyEq_refl_selfSafe (selfSafeList_mem al hsafe value hv)⟩
        rw [listLoop_matched al al false [] hmatch]
        simp [Except.map, rTruthy]

/-- C5 counterexample: three identical-tree comparisons outside the amended
class that are not empty.  A null value compared against itself reports
`Expected key but not found.` (a truthy, non-empty result); a sequence whose
mapping element has a sequence value raises an uncaught `TypeError` when
compared against an identical copy (hashing the expected pairs); a sequence
mixing a mapping and a scalar raises an uncaught `AttributeError` against an
identical copy (`iteritems` on the scalar element). -/
theorem c5_idempotence_counterexample :
    (_find_differences "a" .vnone [("a", .vnone)] =
      .ok (.s false "Expected key but not found.") ∧
      rTruthy (.s false "Expected key but not found.") = true) ∧
    _find_differences "k" (.vlist [.vdict [("a", .vlist [.vint 1])]])
      [("k", .vlist [.vdict [("a", .vlist [.vint 1])]])] = .error .typeError ∧
    _find_differences "k" (.vlist [.vdict [("a", .vint 1)], .vint 2])
      [("k", .vlist [.vdict [("a", .vint 1)], .vint 2])] = .error .attributeError := by
  refine ⟨⟨?_, ?_⟩, ?_, ?_⟩
  · simp [_find_differences.eq_def]
  · rfl
  · simp [_find_differences.eq_def, _handle_list, pyIter, listLoop.eq_def,
      dictElemLoop.eq_def, hashableEntries, hashableV.eq_def, pairMem, pyEq.eq_def,
      pyIndex, pyFind, Except.map]
  · simp [_find_differences.eq_def, _handle_list, pyIter, listLoop.eq_def,
      dictElemLoop.eq_def, hashableEntries, hashableV.eq_def, pairMem, pyEq.eq_def,
      pyIndex, pyFind, Except.map]

/-- C5 amended: comparing a value tree against an identical copy of itself
yields the empty result for every *self-safe* tree: no null marker, mappings
with distinct keys and self-safe values, and sequences that either contain
no mapping (elements self-safe) or consist solely of flat scalar-valued
mappings.  The counterexample shows each escape hatch is real: null values
report a missing key, and the two sequence shapes outside the class crash
with `TypeError`/`AttributeError`. -/
theorem c5_idempotent_on_selfsafe (k : String) (evs : List (String × Value)) (v : Value)
    (hsafe : selfSafe v = true) (hfind : pyFind evs k = some v) :
    (_find_differences k v evs).map rTruthy = .ok false :=
  c5_main (sizeOf v) v le_rfl hsafe k evs hfind

/-- C5 witness: a mapping with a text value and a sequence value (the latter
forcing the per-key branch), compared against an identical copy. -/
theorem c5_idempotent_witness :
    (_find_differences "get_facts"
      (.vdict [("os", .vstr "eos"), ("peers", .vlist [.vint 1])])
      [("get_facts", .vdict [("os", .vstr "eos"), ("peers", .vlist [.vint 1])])]).map
        rTruthy = .ok false := by
  apply c5_idempotent_on_selfsafe
  · simp [selfSafe, selfSafeEntries, selfSafeList, nodupKeysB, isVdict]
  · simp [pyFind]

/-- Whether a stored result is a plain string message. -/
def isSVal : RVal → Bool
  | .s _ _ => true
  | _ => false

mutual

/-- The pruning invariant of error trees (C6): every list or dict node
anywhere in the tree is non-empty, and every dict entry holds a truthy
value.  String and raw-value leaves carry no emptiness obligation. -/
def branchy : RVal → Bool
  | .s _ _ => true
  | .v _ => true
  | .l xs => !xs.isEmpty && branchyList xs
  | .d m => !m.isEmpty && branchyEntries m
termination_by r => sizeOf r

/-- All elements satisfy the pruning invariant. -/
def branchyList : List RVal → Bool
  | [] => true
  | x :: rest => branchy x && branchyList rest
termination_by xs => sizeOf xs

/-- All entry values are truthy and satisfy the pruning invariant. -/
def branchyEntries : List (String × RVal) → Bool
  | [] => true
  | (_, r) :: rest => (rTruthy r && branchy r) && branchyEntries rest
termination_by m => sizeOf m

end

/-- String leaves satisfy the pruning invariant. -/
theorem isSVal_branchy {x : RVal} (h : isSVal x = true) : branchy x = true := by
  cases x <;> simp [isSVal] at h
  rw [branchy]

/-- Elementwise pruning gives the list form. -/
theorem branchyList_of_mem : ∀ xs : List RVal, (∀ x ∈ xs, branchy x = true) →
    branchyList xs = true := by
  intro xs
  induction xs with
  | nil =>
    intro _
    rw [branchyList]
  | cons x rest ih =>
    intro h
    rw [branchyList, Bool.and_eq_true]
    exact ⟨h x (by simp), ih (fun q hq => h q (by simp [hq]))⟩

/-- Entrywise pruning gives the entry-list form. -/
theorem branchyEntries_of_mem : ∀ m : List (String × RVal),
    (∀ p ∈ m, rTruthy p.2 = true ∧ branchy p.2 = true) → branchyEntries m = true := by
  intro m
  induction m with
  | nil =>
    intro _
    rw [branchyEntries]
  | cons q rest ih =>
    obtain ⟨k, r⟩ := q
    intro h
    rw [branchyEntries, Bool.and_eq_true, Bool.and_eq_true]
    exact ⟨h (k, r) (by simp), ih (fun p hp => h p (by simp [hp]))⟩

/-- Every message produced by the set-difference reporting loop is a plain
string. -/
theorem fastLoop_isS (ad : List (String × Value)) : ∀ l msgs,
    fastLoop ad l = .ok msgs → ∀ x ∈ msgs, isSVal x = true := by
  intro l
  induction l with
  | nil =>
    intro msgs h x hx
    rw [fastLoop] at h
    injection h with h2
    subst h2
    cases hx
  | cons p rest ih =>
    intro msgs h x hx
    obtain ⟨k, v⟩ := p
    rw [fastLoop] at h
    cases hpi : pyIndex ad k with
    | error e =>
      rw [hpi] at h
      exact absurd h (by simp)
    | ok av =>
      rw [hpi] at h
      cases hfl : fastLoop ad rest with
      | error e =>
        rw [hfl] at h
        exact absurd h (by simp)
      | ok msgs2 =>
        rw [hfl] at h
        injection h with h2
        subst h2
        rcases List.mem_cons.mp hx with heq | hmem
        · rw [heq]
          rfl
        · exact ih msgs2 hfl x hmem

/-- Every element the `_handle_list` loop adds to its accumulator is a plain
string. -/
theorem listLoop_isS (avs : List Value) : ∀ rem (uni : Bool) (msg : String)
    (acc out : List RVal), (∀ x ∈ acc, isSVal x = true) →
    listLoop avs rem uni msg acc = .ok out → ∀ x ∈ out, isSVal x = true := by
  intro rem
  induction rem with
  | nil =>
    intro uni msg acc out hacc h x hx
    rw [listLoop] at h
    injection h with h2
    subst h2
    exact hacc x hx
  | cons value rest ih =>
    intro uni msg acc out hacc h x hx
    have haccstep : ∀ (c : Prop) [Decidable c] (u2 : Bool) (m2 : String),
        ∀ y ∈ (if c then acc ++ [RVal.s u2 m2] else acc), isSVal y = true := by
      intro c hc u2 m2 y hy
      by_cases hcc : c
      · rw [if_pos hcc] at hy
        rcases List.mem_append.mp hy with h1 | h2
        · exact hacc y h1
        · rcases List.mem_singleton.mp h2 with rfl
          rfl
      · rw [if_neg hcc] at hy
        exact hacc y hy
    cases value
    case vdict dd =>
      rw [listLoop] at h
      cases hdl : dictElemLoop dd avs false with
      | error e =>
        rw [hdl] at h
        exact absurd h (by simp)
      | ok found =>
        rw [hdl] at h
        exact ih _ _ _ out (fun y hy => haccstep _ _ _ y hy) h x hx
    all_goals
      (rw [listLoop] at h
       · exact ih _ _ _ out (fun y hy => haccstep _ _ _ y hy) h x hx
       · exact fun _ h3 => Value.noConfusion h3)

/-- List form of the pruning invariant, member access. -/
theorem branchyList_mem : ∀ xs : List RVal, branchyList xs = true →
    ∀ x ∈ xs, branchy x = true := by
  intro xs
  induction xs with
  | nil =>
    intro _ x hx
    cases hx
  | cons y rest ih =>
    intro h x hx
    rw [branchyList, Bool.and_eq_true] at h
    rcases List.mem_cons.mp hx with heq | hmem
    · rw [heq]
      exact h.1
    · exact ih h.2 x hmem

/-- The comparator only returns pruned results: a truthy result satisfies
the pruning invariant (all its containers non-empty, all its dict values
truthy), by strong induction on the actual value. -/
theorem comp_good : ∀ n : Nat, ∀ a : Value, sizeOf a ≤ n → ∀ k evs r,
    _find_differences k a evs = .ok r → rTruthy r = true → branchy r = true := by
  intro n
  induction n using Nat.strong_induction_on with
  | _ n ih =>
    intro a hsz k evs r h htr
    cases a with
    | vnone =>
      rw [_find_differences] at h
      injection h with h2
      subst h2
      rw [branchy]
    | vbytes s =>
      rw [_find_differences] at h
      injection h with h2
      subst h2
      rw [branchy]
    | vtuple l =>
      rw [_find_differences] at h
      injection h with h2
      subst h2
      rw [branchy]
    | vstr s =>
      rw [_find_differences] at h
      split at h
      · exact absurd h (by simp)
      · injection h with h2
        subst h2
        simp [scalarRes, branchy]
    | vint m =>
      rw [_find_differences] at h
      split at h
      · exact absurd h (by simp)
      · injection h with h2
        subst h2
        simp [scalarRes, branchy]
    | vbool b =>
      rw [_find_differences] at h
      split at h
      · exact absurd h (by simp)
      · injection h with h2
        subst h2
        simp [scalarRes, branchy]
    | vlist al =>
      rw [_find_differences] at h
      split at h
      · exact absurd h (by simp)
      · rename_i ev hpe
        rw [_handle_list] at h
        split at h
        · exact absurd h (by simp)
        · rename_i items hit
          obtain ⟨out, hout, hro⟩ := except_map_ok h
          subst hro
          rw [branchy, Bool.and_eq_true]
          rw [rTruthy] at htr
          refine ⟨htr, ?_⟩
          exact branchyList_of_mem out (fun x hx =>
            isSVal_branchy (listLoop_isS al items false "" [] out
              (fun y hy => absurd hy (List.not_mem_nil y)) hout x hx))
    | vdict ad =>
      rw [_find_differences] at h
      split at h
      · exact absurd h (by simp)
      · rename_i ev hpe
        cases ev
        case vdict ed =>
          rw [_handle_dict] at h
          split at h
          · rw [fastPath] at h
            obtain ⟨msgs, hmsgs, hro⟩ := except_map_ok h
            subst hro
            rw [branchy, Bool.and_eq_true]
            rw [rTruthy] at htr
            refine ⟨htr, ?_⟩
            exact branchyList_of_mem msgs (fun x hx =>
              isSVal_branchy (fastLoop_isS ad _ msgs hmsgs x hx))
          · obtain ⟨entries, hsl, hro⟩ := except_map_ok h
            subst hro
            rw [branchy, Bool.and_eq_true]
            rw [rTruthy] at htr
            refine ⟨htr, ?_⟩
            apply branchyEntries_of_mem
            have hslow : ∀ rem entries2, slowLoop ad ed rem = .ok entries2 →
                ∀ p ∈ entries2, rTruthy p.2 = true ∧ branchy p.2 = true := by
              intro rem
              induction rem with
              | nil =>
                intro entries2 h2 p hp
                rw [slowLoop] at h2
                injection h2 with h3
                subst h3
                cases hp
              | cons q rest ihr =>
                obtain ⟨k2, v2⟩ := q
                intro entries2 h2 p hp
                rw [slowLoop] at h2
                cases hfd : _find_differences k2 (pyGet ad k2) ed with
                | error e =>
                  rw [hfd] at h2
                  exact absurd h2 (by simp)
                | ok r2 =>
                  rw [hfd] at h2
                  cases hsl2 : slowLoop ad ed rest with
                  | error e =>
                    rw [hsl2] at h2
                    exact absurd h2 (by simp)
                  | ok es =>
                    rw [hsl2] at h2
                    injection h2 with h3
                    subst h3
                    by_cases htr2 : rTruthy r2 = true
                    · rw [if_pos htr2] at hp
                      rcases List.mem_cons.mp hp with heq | hmem
                      · subst heq
                        have hgsz : sizeOf (pyGet ad k2) < n := by
                          have h4 := pyGet_sizeOf_le ad k2
                          have h5 : sizeOf (Value.vdict ad) = 1 + sizeOf ad := by simp
                          omega
                        exact ⟨htr2, ih (sizeOf (pyGet ad k2)) hgsz _ le_rfl k2 ed r2 hfd htr2⟩
                      · exact ihr es hsl2 p hmem
                    · rw [if_neg htr2] at hp
                      exact ihr es hsl2 p hp
            exact fun p hp => hslow ed entries hsl p hp
        all_goals
          (rw [_handle_dict] at h
           · exact absurd h (by simp)
           · exact fun _ h3 => Value.noConfusion h3)

/-- Size-free wrapper for `comp_good`. -/
theorem comp_good_w {k : String} {evs : List (String × Value)} {r : RVal} {a : Value}
    (h : _find_differences k a evs = .ok r) (htr : rTruthy r = true) : branchy r = true :=
  comp_good (sizeOf a) a le_rfl k evs r h htr

/-- The items the orchestrator folds out of a truthy pruned comparison
result all satisfy the pruning invariant. -/
theorem resultItems_good {r : RVal} (htr : rTruthy r = true) (hbr : branchy r = true) :
    ∀ x ∈ resultItems r, branchy x = true := by
  intro x hx
  cases r with
  | d m =>
    rw [resultItems] at hx
    rcases List.mem_singleton.mp hx with rfl
    exact hbr
  | v xv =>
    rw [resultItems] at hx
    rcases List.mem_singleton.mp hx with rfl
    rw [branchy]
  | s uni xstr =>
    cases uni
    · rw [resultItems] at hx
      rcases List.mem_singleton.mp hx with rfl
      rw [branchy]
    · rw [resultItems] at hx
      obtain ⟨c, _, rfl⟩ := List.mem_map.mp hx
      rw [branchy]
  | l xs =>
    rw [resultItems] at hx
    rw [branchy, Bool.and_eq_true] at hbr
    exact branchyList_mem xs hbr.2 x hx

/-- The per-key loop of the getter branch stores only truthy, pruned
values. -/
theorem keyLoop_good (actual : Value) (ed : List (String × Value)) :
    ∀ rem entries, keyLoop actual ed rem = .ok entries →
    ∀ p ∈ entries, rTruthy p.2 = true ∧ branchy p.2 = true := by
  have hnil : ∀ entries, keyLoop actual ed [] = Except.ok entries →
      ∀ p ∈ entries, rTruthy p.2 = true ∧ branchy p.2 = true := by
    intro entries h p hp
    rw [keyLoop] at h
    injection h with h2
    subst h2
    cases hp
  cases actual
  case vdict ad =>
    intro rem
    induction rem with
    | nil => exact hnil
    | cons q rest ihr =>
      obtain ⟨key, v0⟩ := q
      intro entries h p hp
      rw [keyLoop] at h
      cases hfd : _find_differences key (pyGet ad key) ed with
      | error e =>
        rw [hfd] at h
        exact absurd h (by simp)
      | ok r =>
        rw [hfd] at h
        cases hkl : keyLoop (Value.vdict ad) ed rest with
        | error e =>
          rw [hkl] at h
          exact absurd h (by simp)
        | ok es =>
          rw [hkl] at h
          injection h with h2
          subst h2
          by_cases htr0 : rTruthy r = true
          · simp only [htr0, if_true] at hp
            by_cases hni : (resultItems r).isEmpty = true
            · simp only [hni, Bool.not_true, Bool.false_eq_true, if_false] at hp
              exact ihr es hkl p hp
            · have hni2 : (resultItems r).isEmpty = false := by
                revert hni
                cases (resultItems r).isEmpty <;> simp
              simp only [hni2, Bool.not_false, if_true] at hp
              rcases List.mem_cons.mp hp with heq | hmem
              · subst heq
                refine ⟨?_, ?_⟩
                · rw [rTruthy]
                  simp [hni2]
                · rw [branchy, Bool.and_eq_true]
                  refine ⟨by simp [hni2], ?_⟩
                  exact branchyList_of_mem _ (resultItems_good htr0 (comp_good_w hfd htr0))
              · exact ihr es hkl p hmem
          · have htr1 : rTruthy r = false := by
              revert htr0
              cases rTruthy r <;> simp
            simp only [htr1, Bool.false_eq_true, if_false, List.isEmpty_nil, Bool.not_true,
              if_false] at hp
            exact ihr es hkl p hp
  all_goals
    (intro rem
     cases rem with
     | nil => exact hnil
     | cons q rest =>
       obtain ⟨key, v0⟩ := q
       intro entries h p hp
       rw [keyLoop] at h
       · exact absurd h (by simp)
       · exact fun _ h3 => Value.noConfusion h3)

/-- The per-getter loop stores only truthy, pruned values. -/
theorem getterLoop_good (cls : Driver) (source : List (String × Value)) :
    ∀ gl errs, getterLoop cls source gl = .ok errs →
    ∀ p ∈ errs, rTruthy p.2 = true ∧ branchy p.2 = true := by
  intro gl
  induction gl with
  | nil =>
    intro errs h p hp
    rw [getterLoop] at h
    injection h with h2
    subst h2
    cases hp
  | cons g rest ih =>
    intro errs h p hp
    rw [getterLoop] at h
    split at h
    · exact absurd h (by simp)
    · split at h
      · simp only [] at h
        split at h
        · split at h
          · exact absurd h (by simp)
          · exact absurd h (by simp)
        · exact absurd h (by simp)
      · rename_i es hgl
        simp only [] at h
        split at h
        · rename_i ed hed
          split at h
          · exact absurd h (by simp)
          · rename_i entries hkl
            injection h with h2
            subst h2
            by_cases hni : entries.isEmpty = true
            · simp only [hni, Bool.not_true, Bool.false_eq_true, if_false] at hp
              exact ih es hgl p hp
            · have hni2 : entries.isEmpty = false := by
                revert hni
                cases entries.isEmpty <;> simp
              simp only [hni2, Bool.not_false, if_true] at hp
              rcases List.mem_cons.mp hp with heq | hmem
              · subst heq
                refine ⟨?_, ?_⟩
                · rw [rTruthy]
                  simp [hni2]
                · rw [branchy, Bool.and_eq_true]
                  refine ⟨by simp [hni2], ?_⟩
                  exact branchyEntries_of_mem entries (keyLoop_good _ ed ed entries hkl)
              · exact ih es hgl p hmem
        · exact absurd h (by simp)

/-- The configuration branch stores only a truthy, pruned value. -/
theorem configErrors_good (cls : Driver) (source : List (String × Value)) (c : String) :
    ∀ errs, configErrors cls source c = .ok errs →
    ∀ p ∈ errs, rTruthy p.2 = true ∧ branchy p.2 = true := by
  intro errs h p hp
  rw [configErrors] at h
  split at h
  · exact absurd h (by simp)
  · split at h
    · exact absurd h (by simp)
    · rename_i missing hmiss
      injection h with h2
      subst h2
      by_cases hni : missing.isEmpty = true
      · simp only [hni, Bool.not_true, Bool.false_eq_true, if_false] at hp
        cases hp
      · have hni2 : missing.isEmpty = false := by
          revert hni
          cases missing.isEmpty <;> simp
        simp only [hni2, Bool.not_false, if_true] at hp
        rcases List.mem_singleton.mp hp with rfl
        refine ⟨?_, ?_⟩
        · rw [rTruthy]
          simp [List.isEmpty_iff, List.map_eq_nil_iff]
          intro hc
          rw [hc] at hni2
          simp at hni2
        · rw [branchy, Bool.and_eq_true]
          constructor
          · simp [List.isEmpty_iff, List.map_eq_nil_iff]
            intro hc
            rw [hc] at hni2
            simp at hni2
          · apply branchyList_of_mem
            intro x hx
            obtain ⟨xv, _, rfl⟩ := List.mem_map.mp hx
            rw [branchy]

/-- Everything the orchestrator accumulates is truthy and pruned. -/
theorem validateErrors_good (cls : Driver) (getters : Option (List String))
    (config : Option String) (source : List (String × Value)) :
    ∀ errs, validateErrors cls getters config source = .ok errs →
    ∀ p ∈ errs, rTruthy p.2 = true ∧ branchy p.2 = true := by
  intro errs h p hp
  rw [validateErrors] at h
  split at h
  · exact absurd h (by simp)
  · split at h
    · exact absurd h (by simp)
    · split at h
      · exact getterLoop_good cls source _ errs h p hp
      · split at h
        · exact configErrors_good cls source _ errs h p hp
        · injection h with h2
          subst h2
          cases hp

/-- C6: a run of `validate` that returns normally returns the literal
success marker exactly when the accumulated error mapping is empty, and
otherwise returns a non-empty error mapping — never both — in which every
entry is truthy and satisfies the pruning invariant: every list or dict
node anywhere in the returned error tree is non-empty, and every dict
entry's value is truthy (empty per-check results having been omitted
entirely). -/
theorem c6_success_or_pruned_errors (cls : Driver) (getters : Option (List String))
    (config : Option String) (source : List (String × Value)) (out : VOut)
    (h : validate cls getters config source = .ok out) :
    (out = .success ↔ validateErrors cls getters config source = .ok []) ∧
    (∀ errs, out = .failure errs → errs ≠ [] ∧
      ∀ p ∈ errs, rTruthy p.2 = true ∧ branchy p.2 = true) := by
  rw [validate] at h
  cases hve : validateErrors cls getters config source with
  | error e =>
    rw [hve] at h
    exact absurd h (by simp)
  | ok errs0 =>
    rw [hve] at h
    injection h with h2
    constructor
    · constructor
      · intro hsucc
        by_cases hni : errs0.isEmpty = true
        · rw [List.isEmpty_iff.mp hni]
        · rw [if_neg hni] at h2
          rw [hsucc] at h2
          exact absurd h2 (by simp)
      · intro hve2
        injection hve2 with h4
        rw [h4] at h2
        simp at h2
        exact h2.symm
    · intro errs hfail
      rw [hfail] at h2
      by_cases hni : errs0.isEmpty = true
      · rw [if_pos hni] at h2
        exact absurd h2 (by simp)
      · rw [if_neg hni] at h2
        injection h2 with h3
        subst h3
        refine ⟨by simpa [List.isEmpty_iff] using hni, ?_⟩
        exact fun p hp => validateErrors_good cls getters config source errs0 hve p hp

/-- A second demonstration driver whose getter result holds an `int`. -/
def demoDriver2 : Driver where
  methods := ["get_facts"]
  runGetter := fun _ => .vdict [("os", .vint 4)]
  getConfig := fun _ => []

/-- C6 witness: a failing run returns a non-empty error mapping whose
entries are truthy and pruned. -/
theorem c6_success_or_pruned_errors_witness :
    validate demoDriver2 (some ["get_facts"]) none [("get_facts", .vdict [("os", .vint 5)])] =
      .ok (.failure [("get_facts",
        .d [("os", .l [.s false "Expected '5', found '4' instead"])])]) ∧
    ([("get_facts", RVal.d [("os", RVal.l [.s false "Expected '5', found '4' instead"])])] ≠
      ([] : List (String × RVal)) ∧
    ∀ p ∈ [("get_facts", RVal.d [("os", RVal.l [.s false "Expected '5', found '4' instead"])])],
      rTruthy p.2 = true ∧ branchy p.2 = true) := by
  have hrun : validate demoDriver2 (some ["get_facts"]) none
      [("get_facts", .vdict [("os", .vint 5)])] =
      .ok (.failure [("get_facts",
        .d [("os", .l [.s false "Expected '5', found '4' instead"])])]) := by
    simp [validate, validateErrors, optListTruthy, optStrTruthy, _check_getters,
      getterLoop.eq_def, keyLoop.eq_def, pyFind, pyGet, pyIndex, demoDriver2,
      _find_differences.eq_def, _handle_dict.eq_def, fastPath, fastLoop, pairMem,
      pyEq.eq_def, hashableEntries, hashableV.eq_def, rTruthy, resultItems, scalarRes,
      _handle_unicode_int, pyStr.eq_def, pyRepr.eq_def, intStr, natStr, natDigits,
      digitChar, isUni, List.find?, pyStartsWith, List.isPrefixOf, Except.map]
  refine ⟨hrun, (c6_success_or_pruned_errors demoDriver2 (some ["get_facts"]) none
    [("get_facts", .vdict [("os", .vint 5)])] _ hrun).2 _ rfl⟩

end NapalmValidate
